import Mathlib

/-!
# Verification of the gdb_chibios debugger plugin

Shallow embedding of the ChibiOS/RT gdb plugin (`chibios.py`, `corefile.py`,
`coredump.py`): the task-context reconstruction engine (register cache, task
registry, exception-frame unwinder) and the ELF core-file writer.

Conventions of the embedding:
* target memory is a byte function `Nat → Nat` (values reduced mod 256 at
  each read); `struct.unpack("<L", ...)` becomes `readWord`;
* gdb side effects (register writes) become explicit event traces;
* Python exceptions become a `Bool` success flag paired with the state as
  mutated up to the point of the raise (CPython mutates `self` in place, so
  fields assigned before the raise keep their new values);
* the kernel data structures walked in target memory (`rlist.r_newer`,
  `tp->p_newer`, `tp->p_ctx.r13`, `tp->p_name`) are abstracted as functions
  of the task-record address, collected in `GdbEnv`.
-/

namespace GdbChibios

/-- One little-endian 32-bit word assembled from four consecutive target
memory bytes, as done by `struct.unpack("<8L", inferior.read_memory(...))`
in `ChibiThread._update`.  Bytes are reduced mod 256. -/
def readWord (mem : Nat → Nat) (a : Nat) : Nat :=
  mem a % 256 + 256 * (mem (a + 1) % 256) +
    65536 * (mem (a + 2) % 256) + 16777216 * (mem (a + 3) % 256)

/-- A gdb lexical block together with its chain of enclosing blocks: each
entry is the block's optional directly-associated function symbol, innermost
first; walking to the `superblock` is taking the tail, and gdb's outermost
block has `superblock = None`, i.e. the chain ends. -/
abbrev Block := List (Option String)

/-- The `while self.block.function is None: self.block = self.block.superblock`
loop of `ChibiThread._update_frame`: walk outward until a block with a named
function is found.  Returns `none` when the walk runs past the outermost
block — at that point the Python loop reads `.function` off `None` and
raises `AttributeError`. -/
def Block.findFn : Block → Option String
  | [] => none
  | some f :: _ => some f
  | none :: b => Block.findFn b

/-- The gdb environment visible to the plugin: target memory, the
symbol table (`gdb.block_for_pc`, `none` models gdb returning `None` for an
address with no block), and the kernel structure fields read through
`gdb.parse_and_eval` / `gdb.Value` field accesses, abstracted as functions of
the task-record address.  `ctxOf tp` is the value of `tp->p_ctx.r13` (a
pointer into the task's stack where the context-switch code saved
r4-r11 and lr); `pnext tp` is `tp->p_newer`; `rootNewer` is `rlist.r_newer`;
`currpVal` is the value of the kernel variable `currp` (`none` models
`gdb.parse_and_eval('currp')` raising); `hw i` is the live value of CPU
register i (0-15 = r0-r15, 16 = xpsr). -/
structure GdbEnv where
  mem : Nat → Nat
  blockForPc : Nat → Option Block
  nameOf : Nat → String
  ctxOf : Nat → Nat
  pnext : Nat → Nat
  rootNewer : Nat
  currpVal : Option Nat
  hw : Nat → Nat

/-- `gdb.block_for_pc(pc)` followed by the named-function walk: the resolved
function name for a program counter, `none` when resolution raises. -/
def resolveBlock (env : GdbEnv) (pc : Nat) : Option String :=
  (env.blockForPc pc).bind Block.findFn

/-- Uppercase hexadecimal digits, as produced by Python's `"%X"`. -/
def hexDigit (n : Nat) : Char :=
  if n < 10 then Char.ofNat (48 + n) else Char.ofNat (55 + n % 16)

/-- Uppercase hexadecimal rendering of `n` (`"%X"` in Python). -/
def toHexUpper (n : Nat) : String :=
  String.mk ((Nat.toDigits 16 n).map Char.toUpper)

/-- The display string `"0x%X in %s ()"` built by `ChibiThread._update_frame`. -/
def frameStr (pc : Nat) (fn : String) : String :=
  "0x" ++ toHexUpper pc ++ " in " ++ fn ++ " ()"

/-- One `ChibiThread` object: `tp` is the task-record address (the opaque
identity), `lwp` the ordinal label, `regs` the reconstructed register list
(19 entries in every reachable state), `blockFn` the function name of the
most recently resolved block (`self.block.function`), `frame_str` the cached
display string. -/
structure ThreadT where
  tp : Nat
  name : String
  lwp : Nat
  regs : List Nat
  active : Bool
  blockFn : String
  frame_str : String
deriving DecidableEq

/-- `ChibiThread._update_frame`: resolve the block for `pc`, walk to a named
function, and set `self.block` / `self.frame_str`.  On resolution failure the
Python code raises `AttributeError` before assigning `frame_str`; this is
returned as the untouched thread paired with `false`. -/
def updateFrame (env : GdbEnv) (t : ThreadT) (pc : Nat) : ThreadT × Bool :=
  match resolveBlock env pc with
  | none => (t, false)
  | some fn => ({ t with blockFn := fn, frame_str := frameStr pc fn }, true)

/-- Size in bytes of ChibiOS's `struct intctx` — the registers pushed by the
context-switch code: r4, r5, r6, r7, r8, r9, r10, r11, lr — nine 4-byte
fields, naturally aligned, no padding (ARM EABI).  `tp->p_ctx.r13` has type
`struct intctx *`, so the gdb pointer arithmetic `(r13+1)` in
`ChibiThread._update` advances the address by this size. -/
def intctxSize : Nat := 36

/-- The register list reconstructed from an inactive task's saved context
(`ChibiThread._update`, non-active branch, before any unwind):
`regs[13] = int((r13+1).cast(ulong))` — the context pointer advanced by
`sizeof(struct intctx)`, truncated by the 32-bit cast; `regs[15]` = the saved
`lr` field (byte offset 32 in `struct intctx`); `regs[4..11]` = the saved
`r4..r11` fields (byte offsets 0..28). -/
def ctxRegs (rc : List Nat) (mem : Nat → Nat) (ctx : Nat) : List Nat :=
  let r := rc.set 13 ((ctx + intctxSize) % 2 ^ 32)
  let r := r.set 15 (readWord mem (ctx + 32))
  let r := r.set 4 (readWord mem (ctx + 0))
  let r := r.set 5 (readWord mem (ctx + 4))
  let r := r.set 6 (readWord mem (ctx + 8))
  let r := r.set 7 (readWord mem (ctx + 12))
  let r := r.set 8 (readWord mem (ctx + 16))
  let r := r.set 9 (readWord mem (ctx + 20))
  let r := r.set 10 (readWord mem (ctx + 24))
  r.set 11 (readWord mem (ctx + 28))

/-- Popping the hardware exception frame (`ChibiThread._update`, the
`_port_switch_from_isr` branch): read 8 consecutive little-endian words at
`regs[13]`, store them as `[r0, r1, r2, r3, r12, lr, pc, xpsr]`, then
`regs[13] += 0x68` (the extended-frame size; plain Python addition, no
truncation). -/
def unwindRegs (regs : List Nat) (mem : Nat → Nat) : List Nat :=
  let sp := regs.getD 13 0
  let w := fun k => readWord mem (sp + 4 * k)
  let r := regs.set 0 (w 0)
  let r := r.set 1 (w 1)
  let r := r.set 2 (w 2)
  let r := r.set 3 (w 3)
  let r := r.set 12 (w 4)
  let r := r.set 14 (w 5)
  let r := r.set 15 (w 6)
  let r := r.set 16 (w 7)
  r.set 13 (r.getD 13 0 + 0x68)

/-- `ChibiThread._update`.  Re-reads the name, copies the register cache,
and either (active task, `self.tp == currp`) resolves the frame directly, or
(inactive task) reconstructs the registers from the saved context, resolves
the frame, and — when the resolved function is the interrupt-return
trampoline `_port_switch_from_isr` — pops the exception frame from the
task's stack and re-resolves.  The `Bool` is `false` when a frame resolution
raised; the returned thread then carries all mutations made before the
raise. -/
def update (env : GdbEnv) (currp : Option Nat) (rc : List Nat)
    (t0 : ThreadT) : ThreadT × Bool :=
  let t1 := { t0 with name := env.nameOf t0.tp, regs := rc }
  if some t1.tp = currp then
    updateFrame env { t1 with active := true } (rc.getD 15 0)
  else
    let t2 := { t1 with
      active := false
      regs := ctxRegs rc env.mem (env.ctxOf t0.tp) }
    match updateFrame env t2 (t2.regs.getD 15 0) with
    | (t3, false) => (t3, false)
    | (t3, true) =>
      if t3.blockFn = "_port_switch_from_isr" then
        let t4 := { t3 with regs := unwindRegs t3.regs env.mem }
        updateFrame env t4 (t4.regs.getD 15 0)
      else (t3, true)

/-- `get_cpu_regs`: `regs = [0]*19`, then `regs[i] = int((unsigned long)$ri)`
for i in 0..15 and `regs[16] = int((unsigned long)$xpsr)`; entries 17 and 18
stay 0.  The cast to the target's 32-bit `unsigned long` truncates mod
`2^32`. -/
def captureRegs (hw : Nat → Nat) : List Nat :=
  ((List.range 16).map (fun i => hw i % 2 ^ 32)) ++ [hw 16 % 2 ^ 32, 0, 0]

/-- One register write issued to the live target by `set_cpu_regs`:
`gdb.execute("set $r%d = %d")`, `set $xpsr`, `set $msp`, or `set $psp`. -/
inductive WEvent where
  | wgpr : Nat → Nat → WEvent
  | wxpsr : Nat → WEvent
  | wmsp : Nat → WEvent
  | wpsp : Nat → WEvent
deriving DecidableEq

/-- The `for i in range(16): gdb.execute("set $r%d = %d" % (i, regs[i]))`
loop of `set_cpu_regs`, over the listed indices: emits one write event per
register; when a write raises (`gprFail i`), the exception propagates — the
loop stops and the flag is `false`. -/
def setGprLoop (regs : List Nat) (gprFail : Nat → Bool) :
    List Nat → List WEvent × Bool
  | [] => ([], true)
  | i :: rest =>
    if gprFail i then ([], false)
    else
      let (es, ok) := setGprLoop regs gprFail rest
      (WEvent.wgpr i (regs.getD i 0) :: es, ok)

/-- `set_cpu_regs(regs)`: write r0-r15; then try to write xpsr, catching any
failure (only a message is printed); then write `regs[13]` to `$msp` when
`regs[16] & 0xff` is non-zero (the target is in an exception handler) and to
`$psp` otherwise.  Result: the trace of writes actually issued, paired with
`false` iff a general-purpose register write raised (which aborts the
call). -/
def set_cpu_regs (regs : List Nat) (gprFail : Nat → Bool) (xpsrOk : Bool) :
    List WEvent × Bool :=
  let (es, ok) := setGprLoop regs gprFail (List.range 16)
  if ok then
    let es := es ++ (if xpsrOk then [WEvent.wxpsr (regs.getD 16 0)] else [])
    let spEvent :=
      if regs.getD 16 0 % 256 ≠ 0 then WEvent.wmsp (regs.getD 13 0)
      else WEvent.wpsp (regs.getD 13 0)
    (es ++ [spEvent], true)
  else (es, false)

/-- The registry traversal loop of `stop_handler` after the first element:
`tp = tmp_thread_list[-1]['p_newer']`; stop before appending when `tp`
equals the first element or `tp->p_ctx.r13 == 0`; otherwise append and
continue.  `fuel` bounds the number of iterations; `none` means the Python
loop does not terminate within `fuel` steps (the real loop would still be
running, so nothing after it executes). -/
def scanAux (env : GdbEnv) (first : Nat) : Nat → Nat → Option (List Nat)
  | 0, _ => none
  | fuel + 1, cur =>
    let tp := env.pnext cur
    if tp = first ∨ env.ctxOf tp = 0 then some []
    else (scanAux env first fuel tp).map (tp :: ·)

/-- The full registry traversal: `tmp_thread_list = [rlist.r_newer]` followed
by the append loop. -/
def scan (env : GdbEnv) (fuel : Nat) : Option (List Nat) :=
  (scanAux env env.rootNewer fuel env.rootNewer).map (env.rootNewer :: ·)

/-- `ChibiThread.__init__(tp)`: record the address and name, take the next
ordinal label, and run `_update`.  The label counter is incremented by the
caller's model (`createNew`) since `next_lwp` is a class variable. -/
def mkThread (env : GdbEnv) (currp : Option Nat) (rc : List Nat)
    (tp lwp : Nat) : ThreadT × Bool :=
  update env currp rc
    { tp := tp, name := env.nameOf tp, lwp := lwp, regs := []
      active := false, blockFn := "", frame_str := "" }

/-- The module-level mutable state of `chibios.py`: `reg_cache`,
`thread_cache`, `ChibiThread.next_lwp`, and `currp`. -/
structure Session where
  reg_cache : List Nat
  threads : List ThreadT
  next_lwp : Nat
  currp : Option Nat
deriving DecidableEq

/-- The fresh module state: empty register cache, no threads, label counter
1, no current thread. -/
def initSession : Session :=
  { reg_cache := [], threads := [], next_lwp := 1, currp := none }

/-- The `for t in thread_cache: t._update()` loop of `stop_handler`: update
each cached thread in order; an exception from `_update` propagates, leaving
the remaining threads untouched (the failing thread keeps the mutations made
before the raise). -/
def updateAll (env : GdbEnv) (currp : Option Nat) (rc : List Nat) :
    List ThreadT → List ThreadT × Bool
  | [] => ([], true)
  | t :: ts =>
    match update env currp rc t with
    | (t', false) => (t' :: ts, false)
    | (t', true) =>
      let (ts', ok) := updateAll env currp rc ts
      (t' :: ts', ok)

/-- The announcement loop of `stop_handler`: for each scanned address not in
`old_thread_set` (the identities cached before the loop — the set is not
extended while the loop runs), construct a `ChibiThread` and announce it.
`ChibiThread.__init__` increments `next_lwp` before `_update` runs, so a
failing construction still consumes a label; the exception then propagates,
ending the loop with the partially built suffix dropped (threads created
earlier were already appended). Returns (appended threads, new label
counter, announced (identity, label) pairs, success flag). -/
def createNew (env : GdbEnv) (currp : Option Nat) (rc : List Nat)
    (old : List Nat) : List Nat → Nat → List ThreadT × Nat × List (Nat × Nat) × Bool
  | [], next => ([], next, [], true)
  | tp :: rest, next =>
    if tp ∈ old then createNew env currp rc old rest next
    else
      match mkThread env currp rc tp next with
      | (_, false) => ([], next + 1, [], false)
      | (ct, true) =>
        let (ts, next', ann, ok) := createNew env currp rc old rest (next + 1)
        (ct :: ts, next', (tp, ct.lwp) :: ann, ok)

/-- `stop_handler`: capture the live registers into `reg_cache`; read
`currp` (on failure: clear `currp` and `thread_cache` and return); build the
scan list; update every cached thread; construct and announce threads for
scanned addresses not previously cached.  (The final
`set_cpu_regs(reg_cache)` writes only to the live target and is not part of
the module state.)  Returns the new state, the announced (identity, label)
pairs, and `false` when the handler raised or the traversal did not
terminate within `fuel`. -/
def stopHandler (env : GdbEnv) (fuel : Nat) (s : Session) :
    Session × List (Nat × Nat) × Bool :=
  let rc := captureRegs env.hw
  match env.currpVal with
  | none =>
    ({ reg_cache := rc, threads := [], next_lwp := s.next_lwp, currp := none },
      [], true)
  | some cp =>
    let s1 : Session := { s with reg_cache := rc, currp := some cp }
    match scan env fuel with
    | none => (s1, [], false)
    | some scanned =>
      match updateAll env (some cp) rc s1.threads with
      | (ts', false) => ({ s1 with threads := ts' }, [], false)
      | (ts', true) =>
        let old := ts'.map (fun t => t.tp)
        let (new, next', ann, ok) :=
          createNew env (some cp) rc old scanned s1.next_lwp
        ({ s1 with threads := ts' ++ new, next_lwp := next' }, ann, ok)

/-- A whole debug session: the sequence of stop events, each with its gdb
environment (and a termination fuel for the traversal), starting from a given
module state; collects all announcements in order. -/
def runSession : List (GdbEnv × Nat) → Session → Session × List (Nat × Nat)
  | [], s => (s, [])
  | (e, fuel) :: rest, s =>
    let (s', ann, _) := stopHandler e fuel s
    let (s'', anns) := runSession rest s'
    (s'', ann ++ anns)

/-- The selection loop of `CommandThread.invoke` (non-empty argument `a`):
mark the matching thread active and write its registers to the target
(collected as a list of register-write calls), remember the label of the
last previously-active non-matching thread in `old_lwp`, and deactivate it.
State threaded in loop order: (updated threads, old_lwp, found,
register-write calls). -/
def selLoop (a : Nat) : List ThreadT → Nat → Bool →
    List ThreadT × Nat × Bool × List (List Nat)
  | [], old, found => ([], old, found, [])
  | t :: ts, old, found =>
    if t.lwp = a then
      let (ts', old', found', ws) := selLoop a ts old true
      ({ t with active := true } :: ts', old', found', t.regs :: ws)
    else if t.active then
      let (ts', old', found', ws) := selLoop a ts t.lwp found
      ({ t with active := false } :: ts', old', found', ws)
    else
      let (ts', old', found', ws) := selLoop a ts old found
      (t :: ts', old', found', ws)

/-- The `if not found` recovery of `CommandThread.invoke`: report the
unknown id and re-activate every thread whose label is `old_lwp`. -/
def selRestore (old : Nat) (ts : List ThreadT) : List ThreadT :=
  ts.map (fun t => if t.lwp = old then { t with active := true } else t)

/-- `CommandThread.invoke` with a non-empty argument parsing to `a`: run the
selection loop (initial `old_lwp = 0`, `found = False`); when no thread
matched, print the failure and restore the previously active thread.
Returns the updated thread list and the register sets written to the live
target. -/
def threadSelect (a : Nat) (ts : List ThreadT) :
    List ThreadT × List (List Nat) :=
  match selLoop a ts 0 false with
  | (ts', old, found, ws) => if found then (ts', ws) else (selRestore old ts', ws)

/-- `struct.pack("<19L", *t.regs)` in `CommandGCore.invoke`: the serialized
register block of one thread's PRSTATUS note.  `struct.pack` demands exactly
19 values and raises `struct.error` when a value does not fit an unsigned
32-bit word, so the pack succeeds exactly when the register list has 19
entries, each below `2 ^ 32`; each value is then encoded as a little-endian
32-bit word. -/
def pack19 (regs : List Nat) : Option (List Nat) :=
  if regs.length = 19 ∧ ∀ v ∈ regs, v < 2 ^ 32 then
    some (regs.flatMap (fun v =>
      [v % 256, v / 256 % 256, v / 65536 % 256, v / 16777216 % 256]))
  else none

/-! ## The ELF core-file writer (`corefile.py`)

Byte strings are `List Nat` with every entry `< 256` by construction on the
emit side; on the parse side each byte read is reduced mod 256.  Integer
fields are encoded in fixed-width little-endian as by `struct.pack`;
`struct.pack` raises on out-of-range values, so the round-trip theorems
carry explicit range hypotheses instead of silently wrapping. -/

/-- `struct.pack("<H", v)`: two little-endian bytes. -/
def le16 (v : Nat) : List Nat := [v % 256, v / 256 % 256]

/-- `struct.pack("<L", v)`: four little-endian bytes. -/
def le32 (v : Nat) : List Nat :=
  [v % 256, v / 256 % 256, v / 65536 % 256, v / 16777216 % 256]

/-- `struct.pack("16s", s)`: the byte string padded (or truncated) to
exactly 16 bytes. -/
def pad16s (l : List Nat) : List Nat :=
  (l ++ List.replicate 16 0).take 16

/-- Byte at offset `o` (0 when out of range, bytes reduced mod 256). -/
def byteAt (b : List Nat) (o : Nat) : Nat := b.getD o 0 % 256

/-- `struct.unpack("<H", ...)` at offset `o`. -/
def rd16 (b : List Nat) (o : Nat) : Nat :=
  byteAt b o + 256 * byteAt b (o + 1)

/-- `struct.unpack("<L", ...)` at offset `o`. -/
def rd32 (b : List Nat) (o : Nat) : Nat :=
  byteAt b o + 256 * byteAt b (o + 1) +
    65536 * byteAt b (o + 2) + 16777216 * byteAt b (o + 3)

/-- `Elf32_Ehdr`, fields in the order of
`fmt = "<16sHHLLLLLHHHHHH"`. -/
structure Elf32_Ehdr where
  e_ident : List Nat
  e_type : Nat
  e_machine : Nat
  e_version : Nat
  e_entry : Nat
  e_phoff : Nat
  e_shoff : Nat
  e_flags : Nat
  e_ehsize : Nat
  e_phentsize : Nat
  e_phnum : Nat
  e_shentsize : Nat
  e_shnum : Nat
  e_shstrndx : Nat
deriving DecidableEq

/-- `struct.calcsize("<16sHHLLLLLHHHHHH")` = 52. -/
def ehdrSize : Nat := 52

/-- `Elf32_Ehdr()` with no buffer: all fields zero, then the sane LSB32
defaults `e_ident = "\x7fELF\1\1\1\0..."`, `e_version = 1`,
`e_ehsize = 52`. -/
def Elf32_Ehdr.init : Elf32_Ehdr :=
  { e_ident := [0x7f, 0x45, 0x4c, 0x46, 1, 1, 1, 0, 0, 0, 0, 0, 0, 0, 0, 0]
    e_type := 0, e_machine := 0, e_version := 1, e_entry := 0, e_phoff := 0
    e_shoff := 0, e_flags := 0, e_ehsize := ehdrSize, e_phentsize := 0
    e_phnum := 0, e_shentsize := 0, e_shnum := 0, e_shstrndx := 0 }

/-- `Elf32_Ehdr.dumps()`: `struct.pack("<16sHHLLLLLHHHHHH", ...)`. -/
def Elf32_Ehdr.dumps (e : Elf32_Ehdr) : List Nat :=
  pad16s e.e_ident ++ le16 e.e_type ++ le16 e.e_machine ++ le32 e.e_version ++
    le32 e.e_entry ++ le32 e.e_phoff ++ le32 e.e_shoff ++ le32 e.e_flags ++
    le16 e.e_ehsize ++ le16 e.e_phentsize ++ le16 e.e_phnum ++
    le16 e.e_shentsize ++ le16 e.e_shnum ++ le16 e.e_shstrndx

/-- `Elf32_Ehdr(buf)`: `struct.unpack` of the first 52 bytes. -/
def Elf32_Ehdr.parse (b : List Nat) : Elf32_Ehdr :=
  { e_ident := (b.take 16).map (· % 256)
    e_type := rd16 b 16, e_machine := rd16 b 18, e_version := rd32 b 20
    e_entry := rd32 b 24, e_phoff := rd32 b 28, e_shoff := rd32 b 32
    e_flags := rd32 b 36, e_ehsize := rd16 b 40, e_phentsize := rd16 b 42
    e_phnum := rd16 b 44, e_shentsize := rd16 b 46, e_shnum := rd16 b 48
    e_shstrndx := rd16 b 50 }

/-- `Elf32_Phdr`, fields in the order of `fmt = "<LLLLLLLL"`, together with
the segment payload (`phdr.data`, attached as a plain attribute and not part
of the packed bytes). -/
structure Elf32_Phdr where
  p_type : Nat
  p_offset : Nat
  p_vaddr : Nat
  p_paddr : Nat
  p_filesz : Nat
  p_memsz : Nat
  p_flags : Nat
  p_align : Nat
  data : List Nat
deriving DecidableEq

/-- `struct.calcsize("<LLLLLLLL")` = 32. -/
def phdrSize : Nat := 32

/-- `Elf32_Phdr.dumps()`: `struct.pack("<LLLLLLLL", ...)`. -/
def Elf32_Phdr.dumps (p : Elf32_Phdr) : List Nat :=
  le32 p.p_type ++ le32 p.p_offset ++ le32 p.p_vaddr ++ le32 p.p_paddr ++
    le32 p.p_filesz ++ le32 p.p_memsz ++ le32 p.p_flags ++ le32 p.p_align

/-- `Elf32_Phdr(chunk)`: `struct.unpack` of the first 32 bytes (the `data`
attribute is attached afterwards by the caller). -/
def Elf32_Phdr.parse (b : List Nat) : Elf32_Phdr :=
  { p_type := rd32 b 0, p_offset := rd32 b 4, p_vaddr := rd32 b 8
    p_paddr := rd32 b 12, p_filesz := rd32 b 16, p_memsz := rd32 b 20
    p_flags := rd32 b 24, p_align := rd32 b 28, data := [] }

/-- The in-memory `CoreFile` object: one file header and the ordered list
of program headers (segments). -/
structure CoreFile where
  ehdr : Elf32_Ehdr
  phdr : List Elf32_Phdr
deriving DecidableEq

/-- `CoreFile()` with no file image: default header, no segments. -/
def CoreFile.init : CoreFile := { ehdr := Elf32_Ehdr.init, phdr := [] }

/-- The per-segment pass of `CoreFile.update_headers`: assign each
descriptor's file offset from the running total `ofs`, refresh
`p_filesz = len(data)`, and raise `p_memsz` to `p_filesz` when it is
smaller. -/
def assignOffsets (ofs : Nat) : List Elf32_Phdr → List Elf32_Phdr
  | [] => []
  | p :: ps =>
    { p with
      p_offset := ofs
      p_filesz := p.data.length
      p_memsz := if p.data.length > p.p_memsz then p.data.length else p.p_memsz }
      :: assignOffsets (ofs + p.data.length) ps

/-- `CoreFile.update_headers`: when the segment list is non-empty, point the
program-header table right behind the file header
(`e_phoff = ehdr.sizeof()`, `e_phentsize = 32`, `e_phnum = len(_phdr)`);
when it is empty, zero all three.  Then lay the payloads out behind the
table. -/
def CoreFile.update_headers (cf : CoreFile) : CoreFile :=
  let eh :=
    if cf.phdr.isEmpty then
      { cf.ehdr with e_phoff := 0, e_phentsize := 0, e_phnum := 0 }
    else
      { cf.ehdr with
        e_phoff := ehdrSize
        e_phentsize := phdrSize
        e_phnum := cf.phdr.length }
  { ehdr := eh
    phdr := assignOffsets (eh.e_phoff + eh.e_phentsize * eh.e_phnum) cf.phdr }

/-- `CoreFile.dump(f)`: run `update_headers`, then write the file header,
all program headers, and all payloads in order. -/
def CoreFile.dumpBytes (cf : CoreFile) : List Nat :=
  let cf := cf.update_headers
  cf.ehdr.dumps ++ (cf.phdr.map Elf32_Phdr.dumps).flatten ++
    (cf.phdr.map (fun p => p.data)).flatten

/-- `CoreFile.set_type(t)`. -/
def CoreFile.set_type (cf : CoreFile) (t : Nat) : CoreFile :=
  { cf with ehdr := { cf.ehdr with e_type := t } }

/-- `CoreFile.set_machine(m)`. -/
def CoreFile.set_machine (cf : CoreFile) (m : Nat) : CoreFile :=
  { cf with ehdr := { cf.ehdr with e_machine := m } }

/-- `CoreFile.add_program(p_type, vaddr, data)`: append a fresh descriptor
with `p_filesz = p_memsz = len(data)` and the payload attached. -/
def CoreFile.add_program (cf : CoreFile) (ptype vaddr : Nat)
    (data : List Nat) : CoreFile :=
  { cf with
    phdr := cf.phdr ++
      [{ p_type := ptype, p_offset := 0, p_vaddr := vaddr, p_paddr := 0
         p_filesz := data.length, p_memsz := data.length, p_flags := 0
         p_align := 0, data := data }] }

/-- The program-header loop of `CoreFile.__init__(fileobj)`: for each of the
`n` descriptors starting at index `i`, slice
`fileobj[phoff + i*entsize : phoff + (i+1)*entsize]`, unpack it (raising —
here `none` — when the slice holds fewer than 32 bytes), and attach
`data = fileobj[p_offset : p_offset + p_filesz]` (Python slices clamp at the
end of the buffer, as `take`/`drop` do). -/
def parsePhdrs (b : List Nat) (phoff entsize : Nat) :
    Nat → Nat → Option (List Elf32_Phdr)
  | 0, _ => some []
  | n + 1, i =>
    let chunk := (b.drop (phoff + i * entsize)).take entsize
    if phdrSize ≤ chunk.length then
      let p := Elf32_Phdr.parse chunk
      let p := { p with data := (b.drop p.p_offset).take p.p_filesz }
      (parsePhdrs b phoff entsize n (i + 1)).map (p :: ·)
    else none

/-- `CoreFile(fileobj)`: unpack the file header (raising — `none` — when the
image holds fewer than 52 bytes), then parse `e_phnum` program headers. -/
def CoreFile.ofBytes (b : List Nat) : Option CoreFile :=
  if ehdrSize ≤ b.length then
    let eh := Elf32_Ehdr.parse b
    (parsePhdrs b eh.e_phoff eh.e_phentsize eh.e_phnum 0).map
      (fun ps => { ehdr := eh, phdr := ps })
  else none

/-! ## Concrete fixtures used by witnesses and counterexamples -/

/-- A 19-entry register cache with distinguishable values. -/
def rc19 : List Nat := List.range 19

/-- A deterministic target memory image: byte at address `a` is `a % 256`. -/
def memA : Nat → Nat := fun a => a % 256

/-- A freshly constructed thread record for task address 1, before any
`_update`. -/
def thA : ThreadT :=
  { tp := 1, name := "", lwp := 1, regs := [], active := false
    blockFn := "", frame_str := "" }

/-- Environment where every pc resolves to `main`, and task 1's saved
context pointer is 100. -/
def envMain : GdbEnv :=
  { mem := memA
    blockForPc := fun _ => some [some "main"]
    nameOf := fun _ => "tsk"
    ctxOf := fun _ => 100
    pnext := fun t => t
    rootNewer := 1
    currpVal := some 0
    hw := fun _ => 0 }

/-- Environment where task 1's reconstructed pc (the saved `lr`, read at
the context's byte offset 32, i.e. address 132) resolves to the
interrupt-return trampoline, and every other pc resolves to `task_fn`. -/
def envTramp : GdbEnv :=
  { envMain with
    blockForPc := fun pc =>
      if pc = readWord memA 132 then some [some "_port_switch_from_isr"]
      else some [none, some "task_fn"] }

/-- Environment whose symbol table is empty: `gdb.block_for_pc` returns
`None` for every address. -/
def envNoSym : GdbEnv :=
  { envMain with blockForPc := fun _ => none }

/-- Environment with a clean three-task registry ring 5 → 6 → 7 → 5, task 5
executing, and non-zero saved context pointers everywhere. -/
def envRing : GdbEnv :=
  { mem := fun _ => 0
    blockForPc := fun _ => some [some "main"]
    nameOf := fun t => if t = 5 then "five" else if t = 6 then "six" else "s"
    ctxOf := fun t => 100 + t
    pnext := fun t => if t = 5 then 6 else if t = 6 then 7 else 5
    rootNewer := 5
    currpVal := some 5
    hw := fun i => i }

/-- Environment whose newest registry entry (`rlist.r_newer = 7`) has a
zero saved stack-pointer field and links back to itself. -/
def envZero : GdbEnv :=
  { envRing with
    ctxOf := fun _ => 0
    pnext := fun _ => 7
    rootNewer := 7
    currpVal := some 7 }

/-- `envRing` where a second stop finds `currp` unreadable: the handler
then clears the thread cache (but not the label counter). -/
def envNoCurrp : GdbEnv :=
  { envRing with currpVal := none }

/-- A concrete core file: ARM core image with one note segment and one
loadable segment. -/
def cfW : CoreFile :=
  (((CoreFile.init.set_type 4).set_machine 40).add_program 4 0
    [1, 2, 3]).add_program 1 4096 [9, 9, 9, 9, 9]

end GdbChibios

namespace GdbChibios

/-! ## Helper lemmas -/

theorem mem_of_getElem_eq_some {l : List Nat} {i a : Nat}
    (h : l[i]? = some a) : a ∈ l := by
  have hi : i < l.length := by
    by_contra hc
    rw [List.getElem?_eq_none (by omega)] at h
    exact Option.noConfusion h
  rw [List.getElem?_eq_getElem hi] at h
  rw [← Option.some.inj h]
  exact List.getElem_mem hi

theorem getD_set_self (l : List Nat) (i v : Nat) (h : i < l.length) :
    (l.set i v).getD i 0 = v := by
  simp [List.getD_eq_getElem?_getD, List.getElem?_set_self',
    List.getElem?_eq_getElem, h]

theorem getD_set_of_ne (l : List Nat) {i j : Nat} (v : Nat) (h : i ≠ j) :
    (l.set i v).getD j 0 = l.getD j 0 := by
  simp [List.getD_eq_getElem?_getD, List.getElem?_set_ne h]

theorem ctxRegs_length (rc : List Nat) (mem : Nat → Nat) (ctx : Nat) :
    (ctxRegs rc mem ctx).length = rc.length := by
  simp [ctxRegs]

theorem unwindRegs_length (regs : List Nat) (mem : Nat → Nat) :
    (unwindRegs regs mem).length = regs.length := by
  simp [unwindRegs]

/-- Index-by-index description of the context reconstruction. -/
theorem ctxRegs_getD (rc : List Nat) (mem : Nat → Nat) (ctx : Nat)
    (h : rc.length = 19) (j : Nat) :
    (ctxRegs rc mem ctx).getD j 0 =
      if j = 13 then (ctx + intctxSize) % 2 ^ 32
      else if j = 15 then readWord mem (ctx + 32)
      else if 4 ≤ j ∧ j ≤ 11 then readWord mem (ctx + 4 * (j - 4))
      else rc.getD j 0 := by
  by_cases hj : j < 19
  · interval_cases j <;>
      simp +decide [ctxRegs, getD_set_of_ne, getD_set_self, h]
  · have h1 : (ctxRegs rc mem ctx).getD j 0 = 0 :=
      List.getD_eq_default _ _ (by rw [ctxRegs_length, h]; omega)
    have h2 : rc.getD j 0 = 0 :=
      List.getD_eq_default _ _ (by omega)
    rw [h1]
    have : ¬ j = 13 := by omega
    rw [if_neg this]
    have : ¬ j = 15 := by omega
    rw [if_neg this]
    have : ¬ (4 ≤ j ∧ j ≤ 11) := by omega
    rw [if_neg this, h2]

/-- Index-by-index description of the exception-frame pop: words 0-7 of the
frame at the pre-unwind stack pointer land in r0-r3, r12, r14, r15, xpsr,
the stack pointer advances by 0x68, and everything else is untouched. -/
theorem unwindRegs_getD (regs : List Nat) (mem : Nat → Nat)
    (h : regs.length = 19) (j : Nat) :
    (unwindRegs regs mem).getD j 0 =
      if j ≤ 3 then readWord mem (regs.getD 13 0 + 4 * j)
      else if j = 12 then readWord mem (regs.getD 13 0 + 4 * 4)
      else if j = 13 then regs.getD 13 0 + 0x68
      else if j = 14 then readWord mem (regs.getD 13 0 + 4 * 5)
      else if j = 15 then readWord mem (regs.getD 13 0 + 4 * 6)
      else if j = 16 then readWord mem (regs.getD 13 0 + 4 * 7)
      else regs.getD j 0 := by
  by_cases hj : j < 19
  · interval_cases j <;>
      simp +decide [unwindRegs, getD_set_of_ne, getD_set_self, h]
  · have h1 : (unwindRegs regs mem).getD j 0 = 0 :=
      List.getD_eq_default _ _ (by rw [unwindRegs_length, h]; omega)
    have h2 : regs.getD j 0 = 0 :=
      List.getD_eq_default _ _ (by omega)
    rw [h1]
    rw [if_neg (by omega : ¬ j ≤ 3)]
    rw [if_neg (by omega : ¬ j = 12)]
    rw [if_neg (by omega : ¬ j = 13)]
    rw [if_neg (by omega : ¬ j = 14)]
    rw [if_neg (by omega : ¬ j = 15)]
    rw [if_neg (by omega : ¬ j = 16)]
    rw [h2]

/-- On the inactive branch with a successfully resolved non-trampoline
function, `_update` ends right after the context reconstruction. -/
theorem update_inactive_no_unwind (env : GdbEnv) (currp : Option Nat)
    (rc : List Nat) (t : ThreadT) (fn : String)
    (hin : ¬ some t.tp = currp)
    (hres : resolveBlock env
      ((ctxRegs rc env.mem (env.ctxOf t.tp)).getD 15 0) = some fn)
    (hfn : fn ≠ "_port_switch_from_isr") :
    update env currp rc t =
      ({ t with
          name := env.nameOf t.tp
          active := false
          regs := ctxRegs rc env.mem (env.ctxOf t.tp)
          blockFn := fn
          frame_str :=
            frameStr ((ctxRegs rc env.mem (env.ctxOf t.tp)).getD 15 0) fn },
        true) := by
  simp only [update, updateFrame, hres, if_neg hin, if_neg hfn]

/-- On the inactive branch, when the reconstructed pc resolves to the
trampoline and the post-unwind pc resolves to `fn2`, `_update` pops the
exception frame. -/
theorem update_inactive_unwind (env : GdbEnv) (currp : Option Nat)
    (rc : List Nat) (t : ThreadT) (fn2 : String)
    (hin : ¬ some t.tp = currp)
    (hres : resolveBlock env
      ((ctxRegs rc env.mem (env.ctxOf t.tp)).getD 15 0) =
      some "_port_switch_from_isr")
    (hres2 : resolveBlock env
      ((unwindRegs (ctxRegs rc env.mem (env.ctxOf t.tp)) env.mem).getD 15 0) =
      some fn2) :
    update env currp rc t =
      ({ t with
          name := env.nameOf t.tp
          active := false
          regs := unwindRegs (ctxRegs rc env.mem (env.ctxOf t.tp)) env.mem
          blockFn := fn2
          frame_str :=
            frameStr
              ((unwindRegs (ctxRegs rc env.mem (env.ctxOf t.tp)) env.mem).getD
                15 0) fn2 },
        true) := by
  simp only [update, updateFrame, hres, hres2, if_neg hin]
  simp

/-! ## Claims -/

/-- C1: for every inactive task whose reconstructed program counter resolves
to the interrupt-return trampoline `_port_switch_from_isr`, `_update` reads
8 consecutive little-endian machine words at the reconstructed stack pointer
and stores words 0-3 into r0-r3, word 4 into r12, word 5 into r14, word 6
into r15, word 7 into xpsr; the final stack pointer is the frame's base
address plus the extended-frame size 0x68; every other register (r4-r11 from
the saved context, the two transient slots from the register cache) keeps
its previously reconstructed value. -/
theorem C1_exception_frame_pop (env : GdbEnv) (currp : Option Nat)
    (rc : List Nat) (t : ThreadT) (fn2 : String)
    (h19 : rc.length = 19) (hin : ¬ some t.tp = currp)
    (hres : resolveBlock env (readWord env.mem (env.ctxOf t.tp + 32)) =
      some "_port_switch_from_isr")
    (hres2 : resolveBlock env
      (readWord env.mem ((env.ctxOf t.tp + intctxSize) % 2 ^ 32 + 4 * 6)) =
      some fn2) :
    (update env currp rc t).2 = true ∧
    (∀ k, k ≤ 3 → (update env currp rc t).1.regs.getD k 0 =
      readWord env.mem ((env.ctxOf t.tp + intctxSize) % 2 ^ 32 + 4 * k)) ∧
    (update env currp rc t).1.regs.getD 12 0 =
      readWord env.mem ((env.ctxOf t.tp + intctxSize) % 2 ^ 32 + 4 * 4) ∧
    (update env currp rc t).1.regs.getD 14 0 =
      readWord env.mem ((env.ctxOf t.tp + intctxSize) % 2 ^ 32 + 4 * 5) ∧
    (update env currp rc t).1.regs.getD 15 0 =
      readWord env.mem ((env.ctxOf t.tp + intctxSize) % 2 ^ 32 + 4 * 6) ∧
    (update env currp rc t).1.regs.getD 16 0 =
      readWord env.mem ((env.ctxOf t.tp + intctxSize) % 2 ^ 32 + 4 * 7) ∧
    (update env currp rc t).1.regs.getD 13 0 =
      (env.ctxOf t.tp + intctxSize) % 2 ^ 32 + 0x68 ∧
    (∀ i, 4 ≤ i → i ≤ 11 → (update env currp rc t).1.regs.getD i 0 =
      readWord env.mem (env.ctxOf t.tp + 4 * (i - 4))) ∧
    (update env currp rc t).1.regs.getD 17 0 = rc.getD 17 0 ∧
    (update env currp rc t).1.regs.getD 18 0 = rc.getD 18 0 := by
  have hctx19 : (ctxRegs rc env.mem (env.ctxOf t.tp)).length = 19 := by
    rw [ctxRegs_length, h19]
  have h13 : (ctxRegs rc env.mem (env.ctxOf t.tp)).getD 13 0 =
      (env.ctxOf t.tp + intctxSize) % 2 ^ 32 := by
    rw [ctxRegs_getD _ _ _ h19]; norm_num
  have h15 : (ctxRegs rc env.mem (env.ctxOf t.tp)).getD 15 0 =
      readWord env.mem (env.ctxOf t.tp + 32) := by
    rw [ctxRegs_getD _ _ _ h19]; norm_num
  have hu15 : (unwindRegs (ctxRegs rc env.mem (env.ctxOf t.tp)) env.mem).getD
      15 0 =
      readWord env.mem ((env.ctxOf t.tp + intctxSize) % 2 ^ 32 + 4 * 6) := by
    rw [unwindRegs_getD _ _ hctx19, h13]; norm_num
  have He := update_inactive_unwind env currp rc t fn2 hin
    (by rw [h15]; exact hres) (by rw [hu15]; exact hres2)
  have hregs : (update env currp rc t).1.regs =
      unwindRegs (ctxRegs rc env.mem (env.ctxOf t.tp)) env.mem := by
    rw [He]
  have hok : (update env currp rc t).2 = true := by rw [He]
  refine ⟨hok, ?_, ?_, ?_, ?_, ?_, ?_, ?_, ?_, ?_⟩
  · intro k hk
    rw [hregs, unwindRegs_getD _ _ hctx19, if_pos hk, h13]
  · rw [hregs, unwindRegs_getD _ _ hctx19, h13]; norm_num
  · rw [hregs, unwindRegs_getD _ _ hctx19, h13]; norm_num
  · rw [hregs]; exact hu15
  · rw [hregs, unwindRegs_getD _ _ hctx19, h13]; norm_num
  · rw [hregs, unwindRegs_getD _ _ hctx19, h13]; norm_num
  · intro i h4 h11
    have c0 : ¬ i ≤ 3 := by omega
    have c12 : ¬ i = 12 := by omega
    have c13 : ¬ i = 13 := by omega
    have c14 : ¬ i = 14 := by omega
    have c15 : ¬ i = 15 := by omega
    have c16 : ¬ i = 16 := by omega
    rw [hregs, unwindRegs_getD _ _ hctx19, if_neg c0, if_neg c12, if_neg c13,
      if_neg c14, if_neg c15, if_neg c16, ctxRegs_getD _ _ _ h19,
      if_neg c13, if_neg c15, if_pos (And.intro h4 h11)]
  · rw [hregs, unwindRegs_getD _ _ hctx19, h13, ctxRegs_getD _ _ _ h19]
    norm_num
  · rw [hregs, unwindRegs_getD _ _ hctx19, h13, ctxRegs_getD _ _ _ h19]
    norm_num

/-- Witness for C1 at the concrete fixture: task 1 of `envTramp` is
inactive, its saved `lr` resolves to the trampoline, and the unwound
registers take the 8 frame words at the reconstructed stack pointer 136. -/
theorem C1_exception_frame_pop_witness :
    (update envTramp (some 0) rc19 thA).2 = true ∧
    (∀ k, k ≤ 3 → (update envTramp (some 0) rc19 thA).1.regs.getD k 0 =
      readWord envTramp.mem
        ((envTramp.ctxOf thA.tp + intctxSize) % 2 ^ 32 + 4 * k)) ∧
    (update envTramp (some 0) rc19 thA).1.regs.getD 12 0 =
      readWord envTramp.mem
        ((envTramp.ctxOf thA.tp + intctxSize) % 2 ^ 32 + 4 * 4) ∧
    (update envTramp (some 0) rc19 thA).1.regs.getD 14 0 =
      readWord envTramp.mem
        ((envTramp.ctxOf thA.tp + intctxSize) % 2 ^ 32 + 4 * 5) ∧
    (update envTramp (some 0) rc19 thA).1.regs.getD 15 0 =
      readWord envTramp.mem
        ((envTramp.ctxOf thA.tp + intctxSize) % 2 ^ 32 + 4 * 6) ∧
    (update envTramp (some 0) rc19 thA).1.regs.getD 16 0 =
      readWord envTramp.mem
        ((envTramp.ctxOf thA.tp + intctxSize) % 2 ^ 32 + 4 * 7) ∧
    (update envTramp (some 0) rc19 thA).1.regs.getD 13 0 =
      (envTramp.ctxOf thA.tp + intctxSize) % 2 ^ 32 + 0x68 ∧
    (∀ i, 4 ≤ i → i ≤ 11 →
      (update envTramp (some 0) rc19 thA).1.regs.getD i 0 =
      readWord envTramp.mem (envTramp.ctxOf thA.tp + 4 * (i - 4))) ∧
    (update envTramp (some 0) rc19 thA).1.regs.getD 17 0 = rc19.getD 17 0 ∧
    (update envTramp (some 0) rc19 thA).1.regs.getD 18 0 = rc19.getD 18 0 :=
  C1_exception_frame_pop envTramp (some 0) rc19 thA "task_fn"
    (by decide) (by decide) (by decide) (by decide)

/-- C2 as stated is false: the claim predicts that the reconstructed stack
pointer of an inactive task is the saved stack-pointer value plus one
machine word (100 + 4 here), but `(r13+1)` in `ChibiThread._update` is gdb
pointer arithmetic on a `struct intctx *`, which advances by the 36-byte
context record, giving 136. -/
theorem C2_counterexample :
    (update envMain (some 0) rc19 thA).1.regs.getD 13 0 = 136 ∧
    (136 : Nat) ≠ 100 + 4 := by
  constructor
  · decide
  · decide

/-- C2 (amended): for every inactive task, the reconstructed register set
before any exception-frame unwind has stack pointer (r13) = the task's saved
stack-pointer value plus the size of the saved context record
(`sizeof(struct intctx)` = nine machine words = 36 bytes, from the gdb
pointer arithmetic `r13+1`, truncated to 32 bits), program counter (r15) =
the saved link-register value, and r4-r11 copied verbatim from the saved
context. -/
theorem C2_inactive_reconstruction (env : GdbEnv) (currp : Option Nat)
    (rc : List Nat) (t : ThreadT) (fn : String)
    (h19 : rc.length = 19) (hin : ¬ some t.tp = currp)
    (hres : resolveBlock env (readWord env.mem (env.ctxOf t.tp + 32)) =
      some fn)
    (hfn : fn ≠ "_port_switch_from_isr") :
    (update env currp rc t).2 = true ∧
    (update env currp rc t).1.regs.getD 13 0 =
      (env.ctxOf t.tp + intctxSize) % 2 ^ 32 ∧
    intctxSize = 9 * 4 ∧
    (update env currp rc t).1.regs.getD 15 0 =
      readWord env.mem (env.ctxOf t.tp + 32) ∧
    ∀ i, 4 ≤ i → i ≤ 11 → (update env currp rc t).1.regs.getD i 0 =
      readWord env.mem (env.ctxOf t.tp + 4 * (i - 4)) := by
  have h15 : (ctxRegs rc env.mem (env.ctxOf t.tp)).getD 15 0 =
      readWord env.mem (env.ctxOf t.tp + 32) := by
    rw [ctxRegs_getD _ _ _ h19]; norm_num
  have He := update_inactive_no_unwind env currp rc t fn hin
    (by rw [h15]; exact hres) hfn
  rw [He]
  refine ⟨rfl, ?_, rfl, ?_, ?_⟩
  · rw [ctxRegs_getD _ _ _ h19]; norm_num
  · exact h15
  · intro i h4 h11
    rw [ctxRegs_getD _ _ _ h19]
    rw [if_neg (by omega), if_neg (by omega), if_pos ⟨h4, h11⟩]

/-- The named-function walk fails exactly when no block of the chain has a
function. -/
theorem findFn_eq_none_iff (b : Block) :
    Block.findFn b = none ↔ ∀ f ∈ b, f = none := by
  induction b with
  | nil => simp [Block.findFn]
  | cons a b ih =>
    cases a with
    | none => simpa [Block.findFn] using ih
    | some f => simp [Block.findFn]

/-- Resolution returns nothing exactly when the pc has no enclosing block
or no block of the chain has a named function. -/
theorem resolveBlock_eq_none_iff (env : GdbEnv) (pc : Nat) :
    resolveBlock env pc = none ↔
      env.blockForPc pc = none ∨
        ∃ b, env.blockForPc pc = some b ∧ ∀ f ∈ b, f = none := by
  cases hb : env.blockForPc pc with
  | none => simp [resolveBlock, hb]
  | some b => simp [resolveBlock, hb, findFn_eq_none_iff]

/-- C8 is false as stated: frame-descriptor resolution can fail.  With an
empty symbol table (`gdb.block_for_pc` returns `None`), `_update_frame` at
pc 0 raises (flag `false`) and the thread is returned without any
placeholder written to its display string. -/
theorem C8_counterexample :
    (updateFrame envNoSym thA 0).2 = false ∧
    (updateFrame envNoSym thA 0).1 = thA := by
  exact ⟨rfl, rfl⟩

/-- C8 (amended): frame-descriptor resolution raises (propagating out of
`_update_frame`) precisely when the program counter has no enclosing block
or no enclosing block up the superblock chain has a named function; the
failure leaves the thread's cached frame description unchanged — no
placeholder name is substituted.  When a named function `fn` is found, the
display string `0x%X in fn ()` is cached. -/
theorem C8_resolution_failure (env : GdbEnv) (t : ThreadT) (pc : Nat) :
    ((updateFrame env t pc).2 = false ↔
      env.blockForPc pc = none ∨
        ∃ b, env.blockForPc pc = some b ∧ ∀ f ∈ b, f = none) ∧
    ((updateFrame env t pc).2 = false → (updateFrame env t pc).1 = t) ∧
    (∀ fn, resolveBlock env pc = some fn →
      updateFrame env t pc =
        ({ t with blockFn := fn, frame_str := frameStr pc fn }, true)) := by
  have hLHS : (updateFrame env t pc).2 = false ↔
      resolveBlock env pc = none := by
    cases hrb : resolveBlock env pc with
    | none => simp [updateFrame, hrb]
    | some g => simp [updateFrame, hrb]
  refine ⟨hLHS.trans (resolveBlock_eq_none_iff env pc), ?_, ?_⟩
  · intro hfalse
    have hrb : resolveBlock env pc = none := hLHS.mp hfalse
    simp [updateFrame, hrb]
  · intro fn hfn
    simp [updateFrame, hfn]

/-- Witness for the amended C8: the failure case at the concrete
symbol-less environment leaves the thread untouched. -/
theorem C8_resolution_failure_witness :
    (updateFrame envNoSym thA 5).1 = thA :=
  (C8_resolution_failure envNoSym thA 5).2.1 (by decide)

/-- The register-write loop succeeds and issues exactly one write per listed
register when no write fails. -/
theorem setGprLoop_ok (regs : List Nat) (gprFail : Nat → Bool)
    (l : List Nat) (h : ∀ i ∈ l, gprFail i = false) :
    setGprLoop regs gprFail l =
      (l.map (fun i => WEvent.wgpr i (regs.getD i 0)), true) := by
  induction l with
  | nil => rfl
  | cons a l ih =>
    simp only [setGprLoop, h a (by simp), Bool.false_eq_true, if_false,
      ih (fun i hi => h i (by simp [hi])), List.map_cons]

/-- A failing register write inside the loop aborts it. -/
theorem setGprLoop_fails (regs : List Nat) (gprFail : Nat → Bool)
    (l : List Nat) (j : Nat) (hj : j ∈ l) (hf : gprFail j = true) :
    (setGprLoop regs gprFail l).2 = false := by
  induction l with
  | nil => exact absurd hj (by simp)
  | cons a l ih =>
    by_cases ha : gprFail a = true
    · simp [setGprLoop, ha]
    · have ha' : gprFail a = false := by
        cases hx : gprFail a
        · rfl
        · exact absurd hx ha
      rcases List.mem_cons.mp hj with rfl | hj2
      · exact absurd hf ha
      · simp only [setGprLoop, ha', Bool.false_eq_true, if_false]
        exact ih hj2

/-- Every event emitted by the register-write loop is a general-purpose
register write. -/
theorem setGprLoop_events (regs : List Nat) (gprFail : Nat → Bool)
    (l : List Nat) :
    ∀ e ∈ (setGprLoop regs gprFail l).1, ∃ i v, e = WEvent.wgpr i v := by
  induction l with
  | nil => simp [setGprLoop]
  | cons a l ih =>
    by_cases ha : gprFail a = true
    · simp [setGprLoop, ha]
    · have ha' : gprFail a = false := by
        cases hx : gprFail a
        · rfl
        · exact absurd hx ha
      simp only [setGprLoop, ha', Bool.false_eq_true, if_false]
      intro e he
      rcases List.mem_cons.mp he with rfl | he2
      · exact ⟨a, regs.getD a 0, rfl⟩
      · exact ih e he2

/-- When no general-purpose register write fails, `set_cpu_regs` completes
with the full trace: the sixteen register writes, the xpsr write when it
succeeds, and the stack-pointer write last. -/
theorem set_cpu_regs_ok (regs : List Nat) (gprFail : Nat → Bool)
    (xpsrOk : Bool) (h : ∀ i, i < 16 → gprFail i = false) :
    set_cpu_regs regs gprFail xpsrOk =
      ((List.range 16).map (fun i => WEvent.wgpr i (regs.getD i 0)) ++
        (if xpsrOk then [WEvent.wxpsr (regs.getD 16 0)] else []) ++
        [if regs.getD 16 0 % 256 ≠ 0 then WEvent.wmsp (regs.getD 13 0)
          else WEvent.wpsp (regs.getD 13 0)], true) := by
  unfold set_cpu_regs
  rw [setGprLoop_ok regs gprFail _ (fun i hi => h i (List.mem_range.mp hi))]
  rfl

/-- When some general-purpose register write fails, `set_cpu_regs` raises
with only the writes made before the failure in its trace. -/
theorem set_cpu_regs_fail (regs : List Nat) (gprFail : Nat → Bool)
    (xpsrOk : Bool) (es : List WEvent)
    (hres : setGprLoop regs gprFail (List.range 16) = (es, false)) :
    set_cpu_regs regs gprFail xpsrOk = (es, false) := by
  unfold set_cpu_regs
  rw [hres]
  rfl

/-- C4: when no general-purpose register write fails, `set_cpu_regs`
completes, and its final write — the only write to a stack-pointer alias —
sends `regs[13]` to `$msp` exactly when the low byte of the status register
`regs[16]` is non-zero (execution inside an exception handler) and to
`$psp` otherwise. -/
theorem C4_sp_alias_selection (regs : List Nat) (gprFail : Nat → Bool)
    (xpsrOk : Bool) (h : ∀ i, i < 16 → gprFail i = false) :
    (set_cpu_regs regs gprFail xpsrOk).2 = true ∧
    (set_cpu_regs regs gprFail xpsrOk).1.getLast? =
      some (if regs.getD 16 0 % 256 ≠ 0 then WEvent.wmsp (regs.getD 13 0)
        else WEvent.wpsp (regs.getD 13 0)) ∧
    ∀ e ∈ (set_cpu_regs regs gprFail xpsrOk).1.dropLast, ∀ v,
      e ≠ WEvent.wmsp v ∧ e ≠ WEvent.wpsp v := by
  have hE := set_cpu_regs_ok regs gprFail xpsrOk h
  have h1 : (set_cpu_regs regs gprFail xpsrOk).1 =
      (List.range 16).map (fun i => WEvent.wgpr i (regs.getD i 0)) ++
        (if xpsrOk then [WEvent.wxpsr (regs.getD 16 0)] else []) ++
        [if regs.getD 16 0 % 256 ≠ 0 then WEvent.wmsp (regs.getD 13 0)
          else WEvent.wpsp (regs.getD 13 0)] := by rw [hE]
  have h2 : (set_cpu_regs regs gprFail xpsrOk).2 = true := by rw [hE]
  refine ⟨h2, ?_, ?_⟩
  · rw [h1, List.getLast?_concat]
  · rw [h1, List.dropLast_concat]
    intro e he v
    rcases List.mem_append.mp he with hm | hm
    · rcases List.mem_map.mp hm with ⟨i, _, rfl⟩
      exact ⟨fun hc => WEvent.noConfusion hc, fun hc => WEvent.noConfusion hc⟩
    · cases xpsrOk with
      | false => exact absurd hm (by simp)
      | true =>
        have he2 : e = WEvent.wxpsr (regs.getD 16 0) := by simpa using hm
        subst he2
        exact ⟨fun hc => WEvent.noConfusion hc, fun hc => WEvent.noConfusion hc⟩

/-- Witness for C4 at a concrete register set whose status-register low byte
is non-zero: the final write goes to `$msp`. -/
theorem C4_sp_alias_selection_witness :
    (set_cpu_regs rc19 (fun _ => false) true).2 = true ∧
    (set_cpu_regs rc19 (fun _ => false) true).1.getLast? =
      some (if rc19.getD 16 0 % 256 ≠ 0 then WEvent.wmsp (rc19.getD 13 0)
        else WEvent.wpsp (rc19.getD 13 0)) ∧
    ∀ e ∈ (set_cpu_regs rc19 (fun _ => false) true).1.dropLast, ∀ v,
      e ≠ WEvent.wmsp v ∧ e ≠ WEvent.wpsp v :=
  C4_sp_alias_selection rc19 (fun _ => false) true (fun _ _ => rfl)

/-- C5: a failure writing the status register does not abort
`set_cpu_regs` — the call completes, no xpsr write lands, and the
stack-pointer write still happens last; whereas a failure writing a
general-purpose register is fatal — the call raises and no stack-pointer
(or status) write is ever issued. -/
theorem C5_partial_write_policy :
    (∀ regs gprFail, (∀ i, i < 16 → gprFail i = false) →
      (set_cpu_regs regs gprFail false).2 = true ∧
      (∀ v, WEvent.wxpsr v ∉ (set_cpu_regs regs gprFail false).1) ∧
      (set_cpu_regs regs gprFail false).1.getLast? =
        some (if regs.getD 16 0 % 256 ≠ 0 then WEvent.wmsp (regs.getD 13 0)
          else WEvent.wpsp (regs.getD 13 0))) ∧
    (∀ regs gprFail xpsrOk j, j < 16 → gprFail j = true →
      (set_cpu_regs regs gprFail xpsrOk).2 = false ∧
      ∀ v, WEvent.wmsp v ∉ (set_cpu_regs regs gprFail xpsrOk).1 ∧
        WEvent.wpsp v ∉ (set_cpu_regs regs gprFail xpsrOk).1 ∧
        WEvent.wxpsr v ∉ (set_cpu_regs regs gprFail xpsrOk).1) := by
  constructor
  · intro regs gprFail h
    have hE := set_cpu_regs_ok regs gprFail false h
    have h1 : (set_cpu_regs regs gprFail false).1 =
        (List.range 16).map (fun i => WEvent.wgpr i (regs.getD i 0)) ++
          [if regs.getD 16 0 % 256 ≠ 0 then WEvent.wmsp (regs.getD 13 0)
            else WEvent.wpsp (regs.getD 13 0)] := by
      rw [hE]; simp
    have h2 : (set_cpu_regs regs gprFail false).2 = true := by rw [hE]
    refine ⟨h2, ?_, ?_⟩
    · intro v hv
      rw [h1] at hv
      rcases List.mem_append.mp hv with hm | hm
      · rcases List.mem_map.mp hm with ⟨i, _, hc⟩
        exact WEvent.noConfusion hc
      · have hm2 := List.mem_singleton.mp hm
        by_cases hc : regs.getD 16 0 % 256 ≠ 0
        · rw [if_pos hc] at hm2; exact WEvent.noConfusion hm2
        · rw [if_neg hc] at hm2; exact WEvent.noConfusion hm2
    · rw [h1, List.getLast?_concat]
  · intro regs gprFail xpsrOk j hj hf
    have hev := setGprLoop_events regs gprFail (List.range 16)
    rcases hres : setGprLoop regs gprFail (List.range 16) with ⟨es, ok⟩
    have hok : ok = false := by
      have := setGprLoop_fails regs gprFail (List.range 16) j
        (List.mem_range.mpr hj) hf
      rw [hres] at this
      exact this
    subst hok
    rw [hres] at hev
    have hE := set_cpu_regs_fail regs gprFail xpsrOk es hres
    refine ⟨by rw [hE], ?_⟩
    intro v
    have h1 : (set_cpu_regs regs gprFail xpsrOk).1 = es := by rw [hE]
    rw [h1]
    refine ⟨fun hv => ?_, fun hv => ?_, fun hv => ?_⟩
    · rcases hev _ hv with ⟨i, w, hc⟩; exact WEvent.noConfusion hc
    · rcases hev _ hv with ⟨i, w, hc⟩; exact WEvent.noConfusion hc
    · rcases hev _ hv with ⟨i, w, hc⟩; exact WEvent.noConfusion hc

/-- Witness for C5: both failure policies at concrete inputs — xpsr write
failing with all register writes succeeding, and register write 3
failing. -/
theorem C5_partial_write_policy_witness :
    ((set_cpu_regs rc19 (fun _ => false) false).2 = true ∧
      (∀ v, WEvent.wxpsr v ∉ (set_cpu_regs rc19 (fun _ => false) false).1) ∧
      (set_cpu_regs rc19 (fun _ => false) false).1.getLast? =
        some (if rc19.getD 16 0 % 256 ≠ 0 then WEvent.wmsp (rc19.getD 13 0)
          else WEvent.wpsp (rc19.getD 13 0))) ∧
    ((set_cpu_regs rc19 (fun i => decide (i = 3)) true).2 = false ∧
      ∀ v, WEvent.wmsp v ∉ (set_cpu_regs rc19 (fun i => decide (i = 3)) true).1 ∧
        WEvent.wpsp v ∉ (set_cpu_regs rc19 (fun i => decide (i = 3)) true).1 ∧
        WEvent.wxpsr v ∉ (set_cpu_regs rc19 (fun i => decide (i = 3)) true).1) :=
  ⟨C5_partial_write_policy.1 rc19 (fun _ => false) (fun _ _ => rfl),
    C5_partial_write_policy.2 rc19 (fun i => decide (i = 3)) true 3
      (by decide) (by decide)⟩

/-- When no thread matches the requested label, the selection loop only
deactivates: it returns the threads with every active flag cleared, records
the label of the last active thread in `old_lwp`, leaves `found` unchanged,
and issues no register write. -/
theorem selLoop_no_match (a : Nat) (ts : List ThreadT)
    (h : ∀ t ∈ ts, t.lwp ≠ a) : ∀ (old : Nat) (found : Bool),
    selLoop a ts old found =
      (ts.map (fun t => if t.active then { t with active := false } else t),
        ts.foldl (fun o t => if t.active then t.lwp else o) old, found, []) := by
  induction ts with
  | nil => intro old found; rfl
  | cons t ts ih =>
    intro old found
    have ht : t.lwp ≠ a := h t (by simp)
    have hrest : ∀ x ∈ ts, x.lwp ≠ a := fun x hx => h x (by simp [hx])
    by_cases hact : t.active
    · simp [selLoop, if_neg ht, hact, ih hrest]
    · simp [selLoop, if_neg ht, hact, ih hrest]

/-- Folding the `old_lwp` accumulator over inactive threads changes
nothing. -/
theorem foldl_old_inactive (l : List ThreadT)
    (h : ∀ x ∈ l, x.active = false) : ∀ o : Nat,
    l.foldl (fun o t => if t.active then t.lwp else o) o = o := by
  induction l with
  | nil => intro o; rfl
  | cons t l ih =>
    intro o
    have ht : t.active = false := h t (by simp)
    simp only [List.foldl_cons, ht, Bool.false_eq_true, if_false]
    exact ih (fun x hx => h x (by simp [hx])) o

/-- Deactivating a list of inactive threads changes nothing. -/
theorem map_deact_inactive (l : List ThreadT)
    (h : ∀ x ∈ l, x.active = false) :
    l.map (fun t => if t.active then { t with active := false } else t) = l := by
  induction l with
  | nil => rfl
  | cons t l ih =>
    have ht : t.active = false := h t (by simp)
    simp only [List.map_cons, ht, Bool.false_eq_true, if_false]
    rw [ih (fun x hx => h x (by simp [hx]))]

/-- Re-activating threads with a label no thread carries changes nothing. -/
theorem selRestore_not_mem (o : Nat) (l : List ThreadT)
    (h : ∀ x ∈ l, x.lwp ≠ o) : selRestore o l = l := by
  induction l with
  | nil => rfl
  | cons t l ih =>
    have ht : t.lwp ≠ o := h t (by simp)
    simp only [selRestore, List.map_cons, if_neg ht]
    have := ih (fun x hx => h x (by simp [hx]))
    rw [selRestore] at this
    rw [this]

/-- Setting the active flag to its current value is the identity. -/
theorem setActive_eq_self (x : ThreadT) (h : x.active = true) :
    ({ x with active := true } : ThreadT) = x := by
  cases x
  simp only at h
  rw [h]

/-- C9: a selection request whose label matches no known thread reports the
failure and leaves every thread record — in particular the set of active
flags — unchanged, and no register write to the live target occurs.
Hypotheses reflect the registry's construction: labels are non-zero and
pairwise distinct, and at most one thread is active. -/
theorem C9_unknown_selection (a : Nat) (ts : List ThreadT)
    (hno : ∀ t ∈ ts, t.lwp ≠ a)
    (hz : ∀ t ∈ ts, t.lwp ≠ 0)
    (hd : (ts.map (fun t => t.lwp)).Nodup)
    (hone : ∀ t1 ∈ ts, ∀ t2 ∈ ts, t1.active = true → t2.active = true →
      t1 = t2) :
    threadSelect a ts = (ts, []) := by
  rw [threadSelect, selLoop_no_match a ts hno 0 false]
  simp only [Bool.false_eq_true, if_false]
  by_cases hP : ∃ x ∈ ts, x.active = true
  · rcases hP with ⟨x, hx, hxact⟩
    rcases List.append_of_mem hx with ⟨l1, l2, rfl⟩
    -- all other positions are inactive
    have hlwps := hd
    rw [List.map_append, List.map_cons, List.nodup_append] at hlwps
    rcases hlwps with ⟨hn1, hn2, hdisj⟩
    have hxl1 : ∀ y ∈ l1, y.lwp ≠ x.lwp := by
      intro y hy hc
      exact hdisj (List.mem_map_of_mem _ hy) (by simp [hc])
    have hxl2 : ∀ y ∈ l2, y.lwp ≠ x.lwp := by
      intro y hy hc
      have := List.nodup_cons.mp hn2
      exact this.1 (by rw [← hc]; exact List.mem_map_of_mem _ hy)
    have hin1 : ∀ y ∈ l1, y.active = false := by
      intro y hy
      by_contra hc
      have hy2 : y.active = true := by
        cases hcc : y.active
        · exact absurd hcc hc
        · rfl
      have := hone y (by simp [hy]) x hx hy2 hxact
      exact hxl1 y hy (by rw [this])
    have hin2 : ∀ y ∈ l2, y.active = false := by
      intro y hy
      by_contra hc
      have hy2 : y.active = true := by
        cases hcc : y.active
        · exact absurd hcc hc
        · rfl
      have := hone y (by simp [hy]) x hx hy2 hxact
      exact hxl2 y hy (by rw [this])
    rw [List.map_append, List.map_cons, map_deact_inactive l1 hin1,
      map_deact_inactive l2 hin2, if_pos hxact]
    rw [List.foldl_append, List.foldl_cons, foldl_old_inactive l1 hin1,
      if_pos hxact, foldl_old_inactive l2 hin2]
    have hsel : selRestore x.lwp
        (l1 ++ ({ x with active := false } : ThreadT) :: l2) =
        l1 ++ x :: l2 := by
      unfold selRestore
      rw [List.map_append, List.map_cons]
      have e1 : l1.map
          (fun t => if t.lwp = x.lwp then { t with active := true } else t) =
          l1 := by
        have h := selRestore_not_mem x.lwp l1 hxl1
        unfold selRestore at h
        exact h
      have e2 : l2.map
          (fun t => if t.lwp = x.lwp then { t with active := true } else t) =
          l2 := by
        have h := selRestore_not_mem x.lwp l2 hxl2
        unfold selRestore at h
        exact h
      have ex : (if ({ x with active := false } : ThreadT).lwp = x.lwp then
          ({ ({ x with active := false } : ThreadT) with
              active := true } : ThreadT)
          else { x with active := false }) = x := by
        rw [if_pos rfl]
        exact setActive_eq_self x hxact
      rw [e1, e2, ex]
    rw [hsel]
  · have hall : ∀ x ∈ ts, x.active = false := by
      intro x hx
      cases hc : x.active
      · rfl
      · exact absurd ⟨x, hx, hc⟩ hP
    rw [map_deact_inactive ts hall, foldl_old_inactive ts hall,
      selRestore_not_mem 0 ts hz]

/-- Witness for C9: selecting unknown label 5 in a cache of two threads
(one active) changes nothing and writes nothing. -/
theorem C9_unknown_selection_witness :
    threadSelect 5
      [{ tp := 10, name := "a", lwp := 1, regs := [1], active := false
         blockFn := "f", frame_str := "s" },
       { tp := 11, name := "b", lwp := 2, regs := [2], active := true
         blockFn := "g", frame_str := "r" }] =
      ([{ tp := 10, name := "a", lwp := 1, regs := [1], active := false
          blockFn := "f", frame_str := "s" },
        { tp := 11, name := "b", lwp := 2, regs := [2], active := true
          blockFn := "g", frame_str := "r" }], []) :=
  C9_unknown_selection 5 _ (by decide) (by decide) (by decide) (by decide)

/-- `_update_frame` does not touch the register list, whether it raises or
not. -/
theorem updateFrame_regs (env : GdbEnv) (t : ThreadT) (pc : Nat) :
    (updateFrame env t pc).1.regs = t.regs := by
  cases hrb : resolveBlock env pc <;> simp [updateFrame, hrb]

/-- `_update` always replaces the register list by one of the same length
as the register cache it copies, on every path including the ones that
raise. -/
theorem update_regs_length (env : GdbEnv) (currp : Option Nat)
    (rc : List Nat) (t : ThreadT) :
    (update env currp rc t).1.regs.length = rc.length := by
  unfold update
  by_cases hc : some t.tp = currp
  · simp only [if_pos hc]
    rw [updateFrame_regs]
  · simp only [if_neg hc]
    rcases h3 : updateFrame env
      { t with
        name := env.nameOf t.tp
        regs := ctxRegs rc env.mem (env.ctxOf t.tp)
        active := false }
      ((ctxRegs rc env.mem (env.ctxOf t.tp)).getD 15 0) with ⟨t3, b⟩
    have ht3 : t3.regs = ctxRegs rc env.mem (env.ctxOf t.tp) := by
      have := updateFrame_regs env
        { t with
          name := env.nameOf t.tp
          regs := ctxRegs rc env.mem (env.ctxOf t.tp)
          active := false }
        ((ctxRegs rc env.mem (env.ctxOf t.tp)).getD 15 0)
      rw [h3] at this
      exact this
    cases b with
    | false => simp only [h3]; rw [ht3, ctxRegs_length]
    | true =>
      simp only [h3]
      by_cases hfn : t3.blockFn = "_port_switch_from_isr"
      · simp only [if_pos hfn]
        rw [updateFrame_regs, unwindRegs_length, ht3, ctxRegs_length]
      · simp only [if_neg hfn]
        rw [ht3, ctxRegs_length]

/-- `get_cpu_regs` returns exactly 19 entries. -/
theorem captureRegs_length (hw : Nat → Nat) : (captureRegs hw).length = 19 := by
  simp [captureRegs]

/-- The update loop of `stop_handler` keeps every cached thread's register
list at 19 entries, also when a mid-loop `_update` raises. -/
theorem updateAll_length (env : GdbEnv) (currp : Option Nat) (rc : List Nat)
    (hrc : rc.length = 19) : ∀ ts : List ThreadT,
    (∀ t ∈ ts, t.regs.length = 19) →
    ∀ t ∈ (updateAll env currp rc ts).1, t.regs.length = 19 := by
  intro ts
  induction ts with
  | nil => intro _ t ht; exact absurd ht (by simp [updateAll])
  | cons t0 ts ih =>
    intro h t ht
    rcases hu : update env currp rc t0 with ⟨t', b⟩
    have ht' : t'.regs.length = 19 := by
      have := update_regs_length env currp rc t0
      rw [hu] at this
      rw [this, hrc]
    cases b with
    | false =>
      simp only [updateAll, hu] at ht
      rcases List.mem_cons.mp ht with rfl | h2
      · exact ht'
      · exact h t (by simp [h2])
    | true =>
      simp only [updateAll, hu] at ht
      rcases List.mem_cons.mp ht with rfl | h2
      · exact ht'
      · exact ih (fun x hx => h x (by simp [hx])) t h2

/-- The announcement loop of `stop_handler` creates only threads whose
register list has 19 entries. -/
theorem createNew_length (env : GdbEnv) (currp : Option Nat) (rc : List Nat)
    (old : List Nat) (hrc : rc.length = 19) : ∀ (l : List Nat) (next : Nat),
    ∀ t ∈ (createNew env currp rc old l next).1, t.regs.length = 19 := by
  intro l
  induction l with
  | nil => intro next t ht; exact absurd ht (by simp [createNew])
  | cons tp rest ih =>
    intro next t ht
    by_cases hmem : tp ∈ old
    · simp only [createNew, if_pos hmem] at ht
      exact ih next t ht
    · simp only [createNew, if_neg hmem] at ht
      rcases hm : mkThread env currp rc tp next with ⟨ct, b⟩
      have hct : ct.regs.length = 19 := by
        have := update_regs_length env currp rc
          { tp := tp, name := env.nameOf tp, lwp := next, regs := []
            active := false, blockFn := "", frame_str := "" }
        rw [show update env currp rc
          { tp := tp, name := env.nameOf tp, lwp := next, regs := []
            active := false, blockFn := "", frame_str := "" } = (ct, b)
          from hm] at this
        rw [this, hrc]
      rw [hm] at ht
      cases b with
      | false => exact absurd ht (by simp)
      | true =>
        rcases List.mem_cons.mp ht with rfl | h2
        · exact hct
        · exact ih (next + 1) t h2

/-- One stop event preserves the 19-entry register invariant of the thread
cache. -/
theorem stopHandler_length (env : GdbEnv) (fuel : Nat) (s : Session)
    (h : ∀ t ∈ s.threads, t.regs.length = 19) :
    ∀ t ∈ (stopHandler env fuel s).1.threads, t.regs.length = 19 := by
  unfold stopHandler
  cases hc : env.currpVal with
  | none => intro t ht; exact absurd ht (by simp)
  | some cp =>
    dsimp only
    cases hs : scan env fuel with
    | none => intro t ht; exact h t ht
    | some scanned =>
      dsimp only
      rcases hua : updateAll env (some cp) (captureRegs env.hw) s.threads
        with ⟨ts', ok⟩
      have hts' : ∀ t ∈ ts', t.regs.length = 19 := by
        intro t ht
        have := updateAll_length env (some cp) (captureRegs env.hw)
          (captureRegs_length env.hw) s.threads h t
        rw [hua] at this
        exact this ht
      cases ok with
      | false => intro t ht; simp only at ht; exact hts' t ht
      | true =>
        intro t ht
        simp only at ht
        rcases List.mem_append.mp ht with h1 | h2
        · exact hts' t h1
        · exact createNew_length env (some cp) (captureRegs env.hw)
            (ts'.map (fun t => t.tp)) (captureRegs_length env.hw)
            scanned s.next_lwp t h2

/-- C10: in every session (any sequence of stop events from the initial
module state), after each refresh every cached task's reconstructed
register set has exactly 19 entries — r0-r15, xpsr and the two transient
slots — the arity invariant the core-dump note encoder's
`struct.pack("<19L", *t.regs)` depends on: whenever the 19 values also fit
unsigned 32-bit words (the separate per-value range condition `struct.pack`
checks), the pack succeeds, so arity is never the cause of a failure. -/
theorem C10_nineteen_registers (envs : List (GdbEnv × Nat)) :
    ∀ t ∈ (runSession envs initSession).1.threads,
      t.regs.length = 19 ∧
      ((∀ v ∈ t.regs, v < 2 ^ 32) → (pack19 t.regs).isSome = true) := by
  have key : ∀ (es : List (GdbEnv × Nat)) (s : Session),
      (∀ t ∈ s.threads, t.regs.length = 19) →
      ∀ t ∈ (runSession es s).1.threads, t.regs.length = 19 := by
    intro es
    induction es with
    | nil => intro s hs t ht; exact hs t ht
    | cons e rest ih =>
      intro s hs t ht
      rcases e with ⟨env, fuel⟩
      rcases hstop : stopHandler env fuel s with ⟨s', ann, ok⟩
      have hs' : ∀ t ∈ s'.threads, t.regs.length = 19 := by
        intro t2 ht2
        have := stopHandler_length env fuel s hs t2
        rw [hstop] at this
        exact this ht2
      simp only [runSession, hstop] at ht
      exact ih s' hs' t ht
  intro t ht
  have h19 := key envs initSession (by simp [initSession]) t ht
  refine ⟨h19, ?_⟩
  intro hv
  rw [pack19, if_pos ⟨h19, hv⟩]
  rfl

/-- C10 witness: after one stop on the three-task ring, the registry is
nonempty and its first thread's reconstructed register list has exactly 19
entries; its values all fit 32 bits, so `struct.pack` of that thread's
registers succeeds. -/
theorem C10_nineteen_registers_witness :
    (runSession [(envRing, 10)] initSession).1.threads.getD 0 thA ∈
      (runSession [(envRing, 10)] initSession).1.threads ∧
    (((runSession [(envRing, 10)] initSession).1.threads.getD 0
        thA).regs.length = 19 ∧
      ((∀ v ∈ ((runSession [(envRing, 10)] initSession).1.threads.getD 0
          thA).regs, v < 2 ^ 32) →
        (pack19 ((runSession [(envRing, 10)] initSession).1.threads.getD 0
          thA).regs).isSome = true)) :=
  ⟨by decide, C10_nineteen_registers [(envRing, 10)] _ (by decide)⟩

/-- Every record appended by the traversal loop passed the stop test: it is
neither the first scanned record nor one with a zero saved stack-pointer
field. -/
theorem scanAux_not_stop (env : GdbEnv) (first : Nat) :
    ∀ (fuel cur : Nat) (m : List Nat),
      scanAux env first fuel cur = some m →
      ∀ x ∈ m, x ≠ first ∧ env.ctxOf x ≠ 0 := by
  intro fuel
  induction fuel with
  | zero => intro cur m h; simp [scanAux] at h
  | succ fuel ih =>
    intro cur m h
    simp only [scanAux] at h
    by_cases hstop : env.pnext cur = first ∨ env.ctxOf (env.pnext cur) = 0
    · rw [if_pos hstop] at h
      have hm : m = [] := (Option.some.inj h).symm
      subst hm
      intro x hx
      exact absurd hx (by simp)
    · rw [if_neg hstop] at h
      rcases hrec : scanAux env first fuel (env.pnext cur) with _ | m2
      · rw [hrec] at h; exact absurd h (by simp)
      · rw [hrec] at h
        have hm : env.pnext cur :: m2 = m := by simpa using h
        subst hm
        push_neg at hstop
        intro x hx
        rcases List.mem_cons.mp hx with rfl | h2
        · exact hstop
        · exact ih (env.pnext cur) m2 hrec x h2

/-- The records appended by the traversal loop are the successive link
iterates of the start record, and the record the loop finally stopped at —
the next iterate — is the first record or has a zero saved
stack-pointer field. -/
theorem scanAux_get (env : GdbEnv) (first : Nat) :
    ∀ (fuel cur : Nat) (m : List Nat),
      scanAux env first fuel cur = some m →
      (∀ i, i < m.length → m[i]? = some (env.pnext^[i + 1] cur)) ∧
      (env.pnext^[m.length + 1] cur = first ∨
        env.ctxOf (env.pnext^[m.length + 1] cur) = 0) := by
  intro fuel
  induction fuel with
  | zero => intro cur m h; simp [scanAux] at h
  | succ fuel ih =>
    intro cur m h
    simp only [scanAux] at h
    by_cases hstop : env.pnext cur = first ∨ env.ctxOf (env.pnext cur) = 0
    · rw [if_pos hstop] at h
      have hm : m = [] := (Option.some.inj h).symm
      subst hm
      refine ⟨fun i hi => absurd hi (by simp), ?_⟩
      simpa using hstop
    · rw [if_neg hstop] at h
      rcases hrec : scanAux env first fuel (env.pnext cur) with _ | m2
      · rw [hrec] at h; exact absurd h (by simp)
      · rw [hrec] at h
        have hm : env.pnext cur :: m2 = m := by simpa using h
        subst hm
        obtain ⟨ihget, ihstop⟩ := ih (env.pnext cur) m2 hrec
        constructor
        · intro i hi
          cases i with
          | zero => simp
          | succ i =>
            have hi2 : i < m2.length := by simpa using hi
            have hv := ihget i hi2
            simp only [List.getElem?_cons_succ]
            rw [hv, ← Function.iterate_succ_apply]
        · have hlen : (env.pnext cur :: m2).length + 1 = (m2.length + 1) + 1 := by
            simp
          rw [hlen, Function.iterate_succ_apply]
          exact ihstop

/-- A terminating registry traversal visits no record twice.  If two
positions held the same record, the link iteration would be trapped in a
cycle of records that all passed the stop test, contradicting
termination. -/
theorem scan_nodup (env : GdbEnv) (fuel : Nat) (l : List Nat)
    (h : scan env fuel = some l) : l.Nodup := by
  rcases hs : scanAux env env.rootNewer fuel env.rootNewer with _ | m
  · rw [scan, hs] at h; exact absurd h (by simp)
  · rw [scan, hs] at h
    have hl : env.rootNewer :: m = l := by simpa using h
    subst hl
    obtain ⟨hget, hfin⟩ := scanAux_get env env.rootNewer fuel env.rootNewer m hs
    have hnst := scanAux_not_stop env env.rootNewer fuel env.rootNewer m hs
    rw [List.nodup_cons]
    have key : ∀ i j, i < m.length → j < m.length → i < j →
        env.pnext^[i + 1] env.rootNewer = env.pnext^[j + 1] env.rootNewer →
        False := by
      intro i j hi hj hij heq
      have hp : 0 < j - i := by omega
      have hper : env.pnext^[j - i] (env.pnext^[i + 1] env.rootNewer) =
          env.pnext^[i + 1] env.rootNewer := by
        rw [← Function.iterate_add_apply]
        have he : j - i + (i + 1) = j + 1 := by omega
        rw [he, ← heq]
      have hmod :=
        (show Function.IsPeriodicPt env.pnext (j - i)
            (env.pnext^[i + 1] env.rootNewer) from hper).iterate_mod_apply
          (m.length + 1 - (i + 1))
      have hsplit : env.pnext^[m.length + 1] env.rootNewer =
          env.pnext^[m.length + 1 - (i + 1)]
            (env.pnext^[i + 1] env.rootNewer) := by
        rw [← Function.iterate_add_apply]
        have he : m.length + 1 - (i + 1) + (i + 1) = m.length + 1 := by omega
        rw [he]
      have hr : (m.length + 1 - (i + 1)) % (j - i) < j - i :=
        Nat.mod_lt _ hp
      have hidx : i + 1 + (m.length + 1 - (i + 1)) % (j - i) - 1 <
          m.length := by omega
      have hmem : env.pnext^[m.length + 1] env.rootNewer ∈ m := by
        have hv := hget (i + 1 + (m.length + 1 - (i + 1)) % (j - i) - 1) hidx
        have he : i + 1 + (m.length + 1 - (i + 1)) % (j - i) - 1 + 1 =
            (m.length + 1 - (i + 1)) % (j - i) + (i + 1) := by omega
        rw [he] at hv
        have hval : env.pnext^[(m.length + 1 - (i + 1)) % (j - i) + (i + 1)]
            env.rootNewer = env.pnext^[m.length + 1] env.rootNewer := by
          rw [Function.iterate_add_apply, hmod, ← hsplit]
        rw [hval] at hv
        exact mem_of_getElem_eq_some hv
      have hnost := hnst _ hmem
      rcases hfin with hf1 | hf2
      · exact hnost.1 hf1
      · exact hnost.2 hf2
    constructor
    · intro hmem
      exact (hnst _ hmem).1 rfl
    · rw [List.nodup_iff_injective_get]
      rintro ⟨i, hi⟩ ⟨j, hj⟩ hij
      have hvi : m.get ⟨i, hi⟩ = env.pnext^[i + 1] env.rootNewer := by
        have h1 := hget i hi
        rw [List.getElem?_eq_getElem hi] at h1
        simpa using Option.some.inj h1
      have hvj : m.get ⟨j, hj⟩ = env.pnext^[j + 1] env.rootNewer := by
        have h1 := hget j hj
        rw [List.getElem?_eq_getElem hj] at h1
        simpa using Option.some.inj h1
      rcases Nat.lt_trichotomy i j with hlt | heq | hgt
      · exact absurd (hvi ▸ hvj ▸ hij) (fun hc => key i j hi hj hlt hc)
      · exact Fin.ext heq
      · exact absurd (hvj ▸ hvi ▸ hij.symm)
          (fun hc => key j i hj hi hgt hc)

/-- C7 is false as stated: the first scanned record (`rlist.r_newer`) is
appended without any saved-stack-pointer test.  In `envZero` the newest
registry record 7 has a zero saved stack pointer, yet the scan returns it
and the stop handler caches (and lists) a task for it. -/
theorem C7_counterexample :
    scan envZero 10 = some [7] ∧
    envZero.ctxOf 7 = 0 ∧
    (stopHandler envZero 10 initSession).1.threads.map (fun t => t.tp) =
      [7] := by
  refine ⟨by decide, by decide, by decide⟩

/-- C7 (amended): the traversal always starts with `rlist.r_newer`,
unconditionally; every later record passed the stop test — it is neither
the first record (closed ring) nor a record whose saved stack-pointer field
reads as zero — and the record at which the traversal stopped (the link
iterate following the last visited one) closed the ring or had a zero
saved stack pointer and was not appended.  So only the first-scanned record
can ever appear in the task listing with a zero saved stack pointer. -/
theorem C7_scan_zero_sp (env : GdbEnv) (fuel : Nat) (l : List Nat)
    (h : scan env fuel = some l) :
    l.head? = some env.rootNewer ∧
    (∀ x ∈ l.drop 1, x ≠ env.rootNewer ∧ env.ctxOf x ≠ 0) ∧
    (env.pnext^[l.length] env.rootNewer = env.rootNewer ∨
      env.ctxOf (env.pnext^[l.length] env.rootNewer) = 0) := by
  rcases hs : scanAux env env.rootNewer fuel env.rootNewer with _ | m
  · rw [scan, hs] at h; exact absurd h (by simp)
  · rw [scan, hs] at h
    have hl : env.rootNewer :: m = l := by simpa using h
    subst hl
    obtain ⟨_, hfin⟩ := scanAux_get env env.rootNewer fuel env.rootNewer m hs
    have hnst := scanAux_not_stop env env.rootNewer fuel env.rootNewer m hs
    refine ⟨rfl, ?_, ?_⟩
    · intro x hx
      exact hnst x (by simpa using hx)
    · simpa using hfin

/-- Witness for the amended C7: the clean ring of `envRing` scans to
`[5, 6, 7]`, whose tail has non-zero saved stack pointers, and the
traversal stopped because the ring closed. -/
theorem C7_scan_zero_sp_witness :
    (scan envRing 10).getD [] = [5, 6, 7] ∧
    ((scan envRing 10).getD []).head? = some envRing.rootNewer ∧
    (∀ x ∈ ((scan envRing 10).getD []).drop 1,
      x ≠ envRing.rootNewer ∧ envRing.ctxOf x ≠ 0) ∧
    (envRing.pnext^[((scan envRing 10).getD []).length] envRing.rootNewer =
      envRing.rootNewer ∨
      envRing.ctxOf
        (envRing.pnext^[((scan envRing 10).getD []).length]
          envRing.rootNewer) = 0) := by
  have h : scan envRing 10 = some [5, 6, 7] := by decide
  have hmain := C7_scan_zero_sp envRing 10 [5, 6, 7] h
  rw [h]
  exact ⟨rfl, hmain.1, hmain.2.1, hmain.2.2⟩

/-- `_update_frame` never changes a thread's identity or label. -/
theorem updateFrame_tp_lwp (env : GdbEnv) (t : ThreadT) (pc : Nat) :
    (updateFrame env t pc).1.tp = t.tp ∧
    (updateFrame env t pc).1.lwp = t.lwp := by
  cases hrb : resolveBlock env pc <;> simp [updateFrame, hrb]

/-- `_update` never changes a thread's identity or label, on any path. -/
theorem update_tp_lwp (env : GdbEnv) (currp : Option Nat) (rc : List Nat)
    (t : ThreadT) :
    (update env currp rc t).1.tp = t.tp ∧
    (update env currp rc t).1.lwp = t.lwp := by
  unfold update
  by_cases hc : some t.tp = currp
  · simp only [if_pos hc]
    exact updateFrame_tp_lwp env _ _
  · simp only [if_neg hc]
    rcases h3 : updateFrame env
      { t with
        name := env.nameOf t.tp
        regs := ctxRegs rc env.mem (env.ctxOf t.tp)
        active := false }
      ((ctxRegs rc env.mem (env.ctxOf t.tp)).getD 15 0) with ⟨t3, b⟩
    have ht3 := updateFrame_tp_lwp env
      { t with
        name := env.nameOf t.tp
        regs := ctxRegs rc env.mem (env.ctxOf t.tp)
        active := false }
      ((ctxRegs rc env.mem (env.ctxOf t.tp)).getD 15 0)
    rw [h3] at ht3
    cases b with
    | false => simp only [h3]; exact ht3
    | true =>
      simp only [h3]
      by_cases hfn : t3.blockFn = "_port_switch_from_isr"
      · simp only [if_pos hfn]
        have h4 := updateFrame_tp_lwp env
          { t3 with regs := unwindRegs t3.regs env.mem }
          (({ t3 with regs := unwindRegs t3.regs env.mem } : ThreadT).regs.getD
            15 0)
        exact ⟨h4.1.trans ht3.1, h4.2.trans ht3.2⟩
      · simp only [if_neg hfn]
        exact ht3

/-- A constructed `ChibiThread` carries the requested identity and
label. -/
theorem mkThread_tp_lwp (env : GdbEnv) (currp : Option Nat) (rc : List Nat)
    (tp lwp : Nat) :
    (mkThread env currp rc tp lwp).1.tp = tp ∧
    (mkThread env currp rc tp lwp).1.lwp = lwp := by
  unfold mkThread
  exact update_tp_lwp env currp rc _

/-- The update loop of `stop_handler` preserves the cached identities, in
order, also when it raises. -/
theorem updateAll_tps (env : GdbEnv) (currp : Option Nat) (rc : List Nat) :
    ∀ ts : List ThreadT,
    (updateAll env currp rc ts).1.map (fun t => t.tp) =
      ts.map (fun t => t.tp) := by
  intro ts
  induction ts with
  | nil => rfl
  | cons t0 ts ih =>
    rcases hu : update env currp rc t0 with ⟨t', b⟩
    have ht' : t'.tp = t0.tp := by
      have := (update_tp_lwp env currp rc t0).1
      rw [hu] at this
      exact this
    cases b with
    | false => simp [updateAll, hu, ht']
    | true => simp [updateAll, hu, ht', ih]

/-- The announcement loop of `stop_handler`: labels are consumed in
increasing order starting at `next`; announced identities are distinct,
absent from the pre-scan cache, drawn from the scan list, and present among
the created threads. -/
theorem createNew_spec (env : GdbEnv) (currp : Option Nat) (rc : List Nat)
    (old : List Nat) :
    ∀ (l : List Nat) (next : Nat) (new2 : List ThreadT) (next2 : Nat)
      (ann : List (Nat × Nat)) (ok : Bool), l.Nodup →
    createNew env currp rc old l next = (new2, next2, ann, ok) →
    next ≤ next2 ∧
    (ann.map Prod.snd).Pairwise (· < ·) ∧
    (∀ p ∈ ann, next ≤ p.2 ∧ p.2 < next2) ∧
    (ann.map Prod.fst).Nodup ∧
    (∀ p ∈ ann, p.1 ∉ old ∧ p.1 ∈ l ∧
      p.1 ∈ new2.map (fun t => t.tp)) := by
  intro l
  induction l with
  | nil =>
    intro next new2 next2 ann ok _ heq
    rw [createNew] at heq
    injection heq with h1 h2
    injection h2 with h2 h3
    injection h3 with h3 h4
    subst h1; subst h2; subst h3
    refine ⟨Nat.le_refl _, ?_, ?_, ?_, ?_⟩ <;> simp
  | cons tp rest ih =>
    intro next new2 next2 ann ok hnd heq
    have hnd2 := List.nodup_cons.mp hnd
    by_cases hmem : tp ∈ old
    · rw [createNew, if_pos hmem] at heq
      obtain ⟨ha, hb, hc, hd, he⟩ := ih next new2 next2 ann ok hnd2.2 heq
      exact ⟨ha, hb, hc, hd, fun p hp =>
        ⟨(he p hp).1, by simp [(he p hp).2.1], (he p hp).2.2⟩⟩
    · rw [createNew, if_neg hmem] at heq
      rcases hm : mkThread env currp rc tp next with ⟨ct, b⟩
      rw [hm] at heq
      have hct : ct.tp = tp ∧ ct.lwp = next := by
        have := mkThread_tp_lwp env currp rc tp next
        rw [hm] at this
        exact this
      cases b with
      | false =>
        simp only at heq
        injection heq with h1 h2
        injection h2 with h2 h3
        injection h3 with h3 h4
        subst h1; subst h2; subst h3
        refine ⟨by omega, ?_, ?_, ?_, ?_⟩ <;> simp
      | true =>
        simp only at heq
        rcases hr : createNew env currp rc old rest (next + 1) with
          ⟨n2, x2, a2, o2⟩
        rw [hr] at heq
        simp only at heq
        injection heq with h1 h2
        injection h2 with h2 h3
        injection h3 with h3 h4
        subst h1; subst h2; subst h3; subst h4
        obtain ⟨ha, hb, hc, hd, he⟩ :=
          ih (next + 1) n2 x2 a2 o2 hnd2.2 hr
        refine ⟨by omega, ?_, ?_, ?_, ?_⟩
        · rw [List.map_cons, List.pairwise_cons]
          refine ⟨?_, hb⟩
          intro y hy
          rcases List.mem_map.mp hy with ⟨p, hp, rfl⟩
          have h2 := (hc p hp).1
          have h3 : ct.lwp < p.2 := by rw [hct.2]; omega
          exact h3
        · intro p hp
          rcases List.mem_cons.mp hp with rfl | hp2
          · have hl : ((tp, ct.lwp) : Nat × Nat).2 = next := hct.2
            rw [hl]
            exact ⟨Nat.le_refl _, by omega⟩
          · have h2 := hc p hp2
            omega
        · rw [List.map_cons, List.nodup_cons]
          refine ⟨?_, hd⟩
          intro hin
          rcases List.mem_map.mp hin with ⟨p, hp, hpe⟩
          have h5 : p.1 = tp := hpe
          exact hnd2.1 (by rw [← h5]; exact (he p hp).2.1)
        · intro p hp
          rcases List.mem_cons.mp hp with rfl | hp2
          · exact ⟨hmem, by simp, by simp [hct.1]⟩
          · exact ⟨(he p hp2).1, by simp [(he p hp2).2.1],
              by simp [(he p hp2).2.2]⟩

/-- Labels across one stop event: the counter never decreases, and the
announced labels are strictly increasing and lie in the consumed
window — on every path, including the ones that raise or reset the
cache. -/
theorem stopHandler_labels (env : GdbEnv) (fuel : Nat) (s s2 : Session)
    (ann : List (Nat × Nat)) (ok : Bool)
    (h : stopHandler env fuel s = (s2, ann, ok)) :
    s.next_lwp ≤ s2.next_lwp ∧
    (ann.map Prod.snd).Pairwise (· < ·) ∧
    (∀ p ∈ ann, s.next_lwp ≤ p.2 ∧ p.2 < s2.next_lwp) := by
  unfold stopHandler at h
  rcases hcv : env.currpVal with _ | cp
  · rw [hcv] at h
    simp only at h
    injection h with h1 h2
    injection h2 with h2 h3
    subst h1; subst h2
    exact ⟨Nat.le_refl _, by simp, by simp⟩
  · rw [hcv] at h
    simp only at h
    rcases hs : scan env fuel with _ | scanned
    · rw [hs] at h
      simp only at h
      injection h with h1 h2
      injection h2 with h2 h3
      subst h1; subst h2
      exact ⟨Nat.le_refl _, by simp, by simp⟩
    · rw [hs] at h
      simp only at h
      rcases hua : updateAll env (some cp) (captureRegs env.hw) s.threads
        with ⟨ts2, ok2⟩
      rw [hua] at h
      cases ok2 with
      | false =>
        simp only at h
        injection h with h1 h2
        injection h2 with h2 h3
        subst h1; subst h2
        exact ⟨Nat.le_refl _, by simp, by simp⟩
      | true =>
        simp only at h
        rcases hcn : createNew env (some cp) (captureRegs env.hw)
          (ts2.map (fun t => t.tp)) scanned s.next_lwp with
          ⟨new2, next2, ann2, ok3⟩
        rw [hcn] at h
        simp only at h
        injection h with h1 h2
        injection h2 with h2 h3
        subst h1; subst h2
        have hnd : scanned.Nodup := scan_nodup env fuel scanned hs
        obtain ⟨ha, hb, hc, _, _⟩ := createNew_spec env (some cp)
          (captureRegs env.hw) (ts2.map (fun t => t.tp)) scanned s.next_lwp
          new2 next2 ann2 ok3 hnd hcn
        exact ⟨ha, hb, hc⟩

/-- Identities across one stop event in which `currp` was readable: the
announced identities are distinct, were not cached before the event, are
cached after it, and the cache only grows. -/
theorem stopHandler_ids (env : GdbEnv) (fuel : Nat) (s s2 : Session)
    (ann : List (Nat × Nat)) (ok : Bool)
    (hcv : env.currpVal ≠ none)
    (h : stopHandler env fuel s = (s2, ann, ok)) :
    (ann.map Prod.fst).Nodup ∧
    (∀ p ∈ ann, p.1 ∉ s.threads.map (fun t => t.tp) ∧
      p.1 ∈ s2.threads.map (fun t => t.tp)) ∧
    (∀ x ∈ s.threads.map (fun t => t.tp),
      x ∈ s2.threads.map (fun t => t.tp)) := by
  unfold stopHandler at h
  rcases hcv2 : env.currpVal with _ | cp
  · exact absurd hcv2 hcv
  · rw [hcv2] at h
    simp only at h
    rcases hs : scan env fuel with _ | scanned
    · rw [hs] at h
      simp only at h
      injection h with h1 h2
      injection h2 with h2 h3
      subst h1; subst h2
      exact ⟨by simp, by simp, by simp⟩
    · rw [hs] at h
      simp only at h
      rcases hua : updateAll env (some cp) (captureRegs env.hw) s.threads
        with ⟨ts2, ok2⟩
      rw [hua] at h
      have htp : ts2.map (fun t => t.tp) = s.threads.map (fun t => t.tp) := by
        have := updateAll_tps env (some cp) (captureRegs env.hw) s.threads
        rw [hua] at this
        exact this
      cases ok2 with
      | false =>
        simp only at h
        injection h with h1 h2
        injection h2 with h2 h3
        subst h1; subst h2
        refine ⟨by simp, by simp, ?_⟩
        intro x hx
        simp only
        rw [htp]
        exact hx
      | true =>
        simp only at h
        rcases hcn : createNew env (some cp) (captureRegs env.hw)
          (ts2.map (fun t => t.tp)) scanned s.next_lwp with
          ⟨new2, next2, ann2, ok3⟩
        rw [hcn] at h
        simp only at h
        injection h with h1 h2
        injection h2 with h2 h3
        subst h1; subst h2
        have hnd : scanned.Nodup := scan_nodup env fuel scanned hs
        obtain ⟨_, _, _, hd, he⟩ := createNew_spec env (some cp)
          (captureRegs env.hw) (ts2.map (fun t => t.tp)) scanned s.next_lwp
          new2 next2 ann2 ok3 hnd hcn
        refine ⟨hd, ?_, ?_⟩
        · intro p hp
          constructor
          · rw [← htp]
            exact (he p hp).1
          · simp only [List.map_append]
            exact List.mem_append_right _ (he p hp).2.2
        · intro x hx
          simp only [List.map_append]
          refine List.mem_append_left _ ?_
          rw [htp]
          exact hx

/-- Labels across a whole session: the counter never decreases and all
announcements carry strictly increasing labels inside the consumed
window. -/
theorem runSession_labels (envs : List (GdbEnv × Nat)) :
    ∀ (s s2 : Session) (anns : List (Nat × Nat)),
    runSession envs s = (s2, anns) →
    s.next_lwp ≤ s2.next_lwp ∧
    (anns.map Prod.snd).Pairwise (· < ·) ∧
    (∀ p ∈ anns, s.next_lwp ≤ p.2 ∧ p.2 < s2.next_lwp) := by
  induction envs with
  | nil =>
    intro s s2 anns heq
    rw [runSession] at heq
    injection heq with h1 h2
    subst h1; subst h2
    exact ⟨Nat.le_refl _, by simp, by simp⟩
  | cons e rest ih =>
    intro s s2 anns heq
    rcases e with ⟨env, fuel⟩
    rw [runSession] at heq
    rcases hstop : stopHandler env fuel s with ⟨s1, ann, ok⟩
    rw [hstop] at heq
    simp only at heq
    rcases hrest : runSession rest s1 with ⟨s3, anns2⟩
    rw [hrest] at heq
    simp only at heq
    injection heq with h1 h2
    subst h1; subst h2
    obtain ⟨hle1, hpw1, hbd1⟩ := stopHandler_labels env fuel s s1 ann ok hstop
    obtain ⟨hle2, hpw2, hbd2⟩ := ih s1 s3 anns2 hrest
    refine ⟨by omega, ?_, ?_⟩
    · rw [List.map_append, List.pairwise_append]
      refine ⟨hpw1, hpw2, ?_⟩
      intro a hax b hbx
      rcases List.mem_map.mp hax with ⟨p, hp, rfl⟩
      rcases List.mem_map.mp hbx with ⟨q, hq, rfl⟩
      have h1 := (hbd1 p hp).2
      have h2 := (hbd2 q hq).1
      omega
    · intro p hp
      rcases List.mem_append.mp hp with h1 | h2
      · have := hbd1 p h1
        omega
      · have := hbd2 p h2
        omega

/-- Identities across a whole session whose stop events could all read
`currp`: every announced identity is new to the cache at its announcement
and the full announcement list repeats no identity. -/
theorem runSession_ids (envs : List (GdbEnv × Nat))
    (hok : ∀ e ∈ envs, e.1.currpVal ≠ none) :
    ∀ (s s2 : Session) (anns : List (Nat × Nat)),
    runSession envs s = (s2, anns) →
    (anns.map Prod.fst).Nodup ∧
    (∀ p ∈ anns, p.1 ∉ s.threads.map (fun t => t.tp)) ∧
    (∀ x ∈ s.threads.map (fun t => t.tp),
      x ∈ s2.threads.map (fun t => t.tp)) := by
  induction envs with
  | nil =>
    intro s s2 anns heq
    rw [runSession] at heq
    injection heq with h1 h2
    subst h1; subst h2
    exact ⟨by simp, by simp, by simp⟩
  | cons e rest ih =>
    intro s s2 anns heq
    rcases e with ⟨env, fuel⟩
    rw [runSession] at heq
    rcases hstop : stopHandler env fuel s with ⟨s1, ann, ok⟩
    rw [hstop] at heq
    simp only at heq
    rcases hrest : runSession rest s1 with ⟨s3, anns2⟩
    rw [hrest] at heq
    simp only at heq
    injection heq with h1 h2
    subst h1; subst h2
    have hok1 : env.currpVal ≠ none := hok (env, fuel) (by simp)
    have hokr : ∀ e ∈ rest, e.1.currpVal ≠ none :=
      fun e he => hok e (by simp [he])
    obtain ⟨hnd1, hmem1, hgrow1⟩ :=
      stopHandler_ids env fuel s s1 ann ok hok1 hstop
    obtain ⟨hnd2, hmem2, hgrow2⟩ := ih hokr s1 s3 anns2 hrest
    refine ⟨?_, ?_, ?_⟩
    · rw [List.map_append, List.nodup_append]
      refine ⟨hnd1, hnd2, ?_⟩
      intro a ha hb
      rcases List.mem_map.mp ha with ⟨p, hp, rfl⟩
      rcases List.mem_map.mp hb with ⟨q, hq, hqe⟩
      have h1 : p.1 ∈ s1.threads.map (fun t => t.tp) := (hmem1 p hp).2
      have h2 : q.1 ∉ s1.threads.map (fun t => t.tp) := hmem2 q hq
      rw [hqe] at h2
      exact h2 h1
    · intro p hp
      rcases List.mem_append.mp hp with h1 | h2
      · exact (hmem1 p h1).1
      · intro hin
        exact hmem2 p h2 (hgrow1 p.1 hin)
    · intro x hx
      exact hgrow2 x (hgrow1 x hx)

/-- C6 is false as stated: a mid-session stop event that cannot read the
kernel's `currp` variable clears the thread cache without resetting the
label counter, so the following rescan announces the same identities a
second time.  Running stops over the ring 5, 6, 7, then one failed `currp`
read, then the same ring, announces identities 5, 6, 7 twice (with labels
1-3 and then 4-6). -/
theorem C6_counterexample :
    (runSession [(envRing, 10), (envNoCurrp, 10), (envRing, 10)]
      initSession).2 = [(5, 1), (6, 2), (7, 3), (5, 4), (6, 5), (7, 6)] ∧
    ¬ ((runSession [(envRing, 10), (envNoCurrp, 10), (envRing, 10)]
      initSession).2.map Prod.fst).Nodup := by
  refine ⟨by decide, by decide⟩

/-- C6 (amended): across every sequence of rescans in one session, the
ordinal label of each newly created task is strictly greater than every
label assigned earlier; and provided no rescan in the sequence failed to
read the executing-task pointer (such a failure clears the task registry
and permits re-announcement), each task identity is reported as new at
most once. -/
theorem C6_announcements (envs : List (GdbEnv × Nat)) :
    ((runSession envs initSession).2.map Prod.snd).Pairwise (· < ·) ∧
    ((∀ e ∈ envs, e.1.currpVal ≠ none) →
      ((runSession envs initSession).2.map Prod.fst).Nodup) := by
  rcases hr : runSession envs initSession with ⟨s2, anns⟩
  refine ⟨(runSession_labels envs initSession s2 anns hr).2.1, ?_⟩
  intro hok
  exact (runSession_ids envs hok initSession s2 anns hr).1

/-- Witness for the amended C6: a two-stop session over the clean ring
announces 5, 6, 7 once with labels 1, 2, 3 — distinct identities,
increasing labels. -/
theorem C6_announcements_witness :
    ((runSession [(envRing, 10), (envRing, 10)] initSession).2.map
      Prod.snd).Pairwise (· < ·) ∧
    ((runSession [(envRing, 10), (envRing, 10)] initSession).2.map
      Prod.fst).Nodup :=
  ⟨(C6_announcements [(envRing, 10), (envRing, 10)]).1,
    (C6_announcements [(envRing, 10), (envRing, 10)]).2 (by decide)⟩

/-- Witness for the amended C2 at the concrete fixture: task 1 of `envMain`
is inactive and its reconstructed pc resolves to `main`. -/
theorem C2_inactive_reconstruction_witness :
    (update envMain (some 0) rc19 thA).2 = true ∧
    (update envMain (some 0) rc19 thA).1.regs.getD 13 0 =
      (envMain.ctxOf thA.tp + intctxSize) % 2 ^ 32 ∧
    intctxSize = 9 * 4 ∧
    (update envMain (some 0) rc19 thA).1.regs.getD 15 0 =
      readWord envMain.mem (envMain.ctxOf thA.tp + 32) ∧
    ∀ i, 4 ≤ i → i ≤ 11 →
      (update envMain (some 0) rc19 thA).1.regs.getD i 0 =
      readWord envMain.mem (envMain.ctxOf thA.tp + 4 * (i - 4)) :=
  C2_inactive_reconstruction envMain (some 0) rc19 thA "main"
    (by decide) (by decide) (by decide) (by decide)

/-! ## Lemmas about the ELF writer -/

theorem le16_length (v : Nat) : (le16 v).length = 2 := rfl

theorem le32_length (v : Nat) : (le32 v).length = 4 := rfl

theorem pad16s_length (l : List Nat) : (pad16s l).length = 16 := by
  simp [pad16s]

theorem ehdr_dumps_length (e : Elf32_Ehdr) : e.dumps.length = 52 := by
  simp [Elf32_Ehdr.dumps, pad16s_length, le16_length, le32_length]

theorem phdr_dumps_length (p : Elf32_Phdr) : p.dumps.length = 32 := rfl

theorem byteAt_append_right (xs b : List Nat) (o : Nat)
    (h : xs.length ≤ o) : byteAt (xs ++ b) o = byteAt b (o - xs.length) := by
  rw [byteAt, byteAt, List.getD_append_right _ _ _ _ h]

theorem rd16_append_right (xs b : List Nat) (o : Nat) (h : xs.length ≤ o) :
    rd16 (xs ++ b) o = rd16 b (o - xs.length) := by
  rw [rd16, rd16, byteAt_append_right _ _ _ h,
    byteAt_append_right _ _ _ (by omega)]
  have he : o + 1 - xs.length = o - xs.length + 1 := by omega
  rw [he]

theorem rd32_append_right (xs b : List Nat) (o : Nat) (h : xs.length ≤ o) :
    rd32 (xs ++ b) o = rd32 b (o - xs.length) := by
  rw [rd32, rd32, byteAt_append_right _ _ _ h,
    byteAt_append_right _ _ _ (by omega),
    byteAt_append_right _ _ _ (by omega),
    byteAt_append_right _ _ _ (by omega)]
  have h1 : o + 1 - xs.length = o - xs.length + 1 := by omega
  have h2 : o + 2 - xs.length = o - xs.length + 2 := by omega
  have h3 : o + 3 - xs.length = o - xs.length + 3 := by omega
  rw [h1, h2, h3]

theorem rd16_le16 (v : Nat) (rest : List Nat) :
    rd16 (le16 v ++ rest) 0 = v % 2 ^ 16 := by
  show rd16 (v % 256 :: (v / 256 % 256 :: rest)) 0 = v % 2 ^ 16
  rw [rd16]
  rw [show byteAt (v % 256 :: (v / 256 % 256 :: rest)) 0 = v % 256 % 256
    from rfl]
  rw [show byteAt (v % 256 :: (v / 256 % 256 :: rest)) 1 = v / 256 % 256 % 256
    from rfl]
  omega

theorem rd32_le32 (v : Nat) (rest : List Nat) :
    rd32 (le32 v ++ rest) 0 = v % 2 ^ 32 := by
  show rd32 (v % 256 :: (v / 256 % 256 :: (v / 65536 % 256 ::
    (v / 16777216 % 256 :: rest)))) 0 = v % 2 ^ 32
  rw [rd32]
  rw [show byteAt (v % 256 :: (v / 256 % 256 :: (v / 65536 % 256 ::
    (v / 16777216 % 256 :: rest)))) 0 = v % 256 % 256 from rfl]
  rw [show byteAt (v % 256 :: (v / 256 % 256 :: (v / 65536 % 256 ::
    (v / 16777216 % 256 :: rest)))) 1 = v / 256 % 256 % 256 from rfl]
  rw [show byteAt (v % 256 :: (v / 256 % 256 :: (v / 65536 % 256 ::
    (v / 16777216 % 256 :: rest)))) 2 = v / 65536 % 256 % 256 from rfl]
  rw [show byteAt (v % 256 :: (v / 256 % 256 :: (v / 65536 % 256 ::
    (v / 16777216 % 256 :: rest)))) 3 = v / 16777216 % 256 % 256 from rfl]
  omega

/-- Parsing `e_phoff` (byte offset 28) back out of a dumped file header. -/
theorem ehdr_parse_phoff (e : Elf32_Ehdr) (rest : List Nat) :
    rd32 (e.dumps ++ rest) 28 = e.e_phoff % 2 ^ 32 := by
  rw [Elf32_Ehdr.dumps]
  simp only [List.append_assoc]
  rw [rd32_append_right _ _ _
      (by simp only [pad16s_length, le16_length, le32_length]; omega),
    rd32_append_right _ _ _
      (by simp only [pad16s_length, le16_length, le32_length]; omega),
    rd32_append_right _ _ _
      (by simp only [pad16s_length, le16_length, le32_length]; omega),
    rd32_append_right _ _ _
      (by simp only [pad16s_length, le16_length, le32_length]; omega),
    rd32_append_right _ _ _
      (by simp only [pad16s_length, le16_length, le32_length]; omega)]
  simp only [pad16s_length, le16_length, le32_length]
  exact rd32_le32 _ _

/-- Parsing `e_phentsize` (byte offset 42) back out of a dumped file
header. -/
theorem ehdr_parse_phentsize (e : Elf32_Ehdr) (rest : List Nat) :
    rd16 (e.dumps ++ rest) 42 = e.e_phentsize % 2 ^ 16 := by
  rw [Elf32_Ehdr.dumps]
  simp only [List.append_assoc]
  rw [rd16_append_right _ _ _
      (by simp only [pad16s_length, le16_length, le32_length]; omega),
    rd16_append_right _ _ _
      (by simp only [pad16s_length, le16_length, le32_length]; omega),
    rd16_append_right _ _ _
      (by simp only [pad16s_length, le16_length, le32_length]; omega),
    rd16_append_right _ _ _
      (by simp only [pad16s_length, le16_length, le32_length]; omega),
    rd16_append_right _ _ _
      (by simp only [pad16s_length, le16_length, le32_length]; omega),
    rd16_append_right _ _ _
      (by simp only [pad16s_length, le16_length, le32_length]; omega),
    rd16_append_right _ _ _
      (by simp only [pad16s_length, le16_length, le32_length]; omega),
    rd16_append_right _ _ _
      (by simp only [pad16s_length, le16_length, le32_length]; omega),
    rd16_append_right _ _ _
      (by simp only [pad16s_length, le16_length, le32_length]; omega)]
  simp only [pad16s_length, le16_length, le32_length]
  exact rd16_le16 _ _

/-- Parsing `e_phnum` (byte offset 44) back out of a dumped file header. -/
theorem ehdr_parse_phnum (e : Elf32_Ehdr) (rest : List Nat) :
    rd16 (e.dumps ++ rest) 44 = e.e_phnum % 2 ^ 16 := by
  rw [Elf32_Ehdr.dumps]
  simp only [List.append_assoc]
  rw [rd16_append_right _ _ _
      (by simp only [pad16s_length, le16_length, le32_length]; omega),
    rd16_append_right _ _ _
      (by simp only [pad16s_length, le16_length, le32_length]; omega),
    rd16_append_right _ _ _
      (by simp only [pad16s_length, le16_length, le32_length]; omega),
    rd16_append_right _ _ _
      (by simp only [pad16s_length, le16_length, le32_length]; omega),
    rd16_append_right _ _ _
      (by simp only [pad16s_length, le16_length, le32_length]; omega),
    rd16_append_right _ _ _
      (by simp only [pad16s_length, le16_length, le32_length]; omega),
    rd16_append_right _ _ _
      (by simp only [pad16s_length, le16_length, le32_length]; omega),
    rd16_append_right _ _ _
      (by simp only [pad16s_length, le16_length, le32_length]; omega),
    rd16_append_right _ _ _
      (by simp only [pad16s_length, le16_length, le32_length]; omega),
    rd16_append_right _ _ _
      (by simp only [pad16s_length, le16_length, le32_length]; omega)]
  simp only [pad16s_length, le16_length, le32_length]
  exact rd16_le16 _ _

/-- Parsing `p_offset` (byte offset 4) back out of a dumped program
header. -/
theorem phdr_parse_offset (p : Elf32_Phdr) (rest : List Nat) :
    rd32 (p.dumps ++ rest) 4 = p.p_offset % 2 ^ 32 := by
  rw [Elf32_Phdr.dumps]
  simp only [List.append_assoc]
  rw [rd32_append_right _ _ _ (by simp only [le32_length]; omega)]
  simp only [le32_length]
  exact rd32_le32 _ _

/-- Parsing `p_vaddr` (byte offset 8) back out of a dumped program
header. -/
theorem phdr_parse_vaddr (p : Elf32_Phdr) (rest : List Nat) :
    rd32 (p.dumps ++ rest) 8 = p.p_vaddr % 2 ^ 32 := by
  rw [Elf32_Phdr.dumps]
  simp only [List.append_assoc]
  rw [rd32_append_right _ _ _ (by simp only [le32_length]; omega),
    rd32_append_right _ _ _ (by simp only [le32_length]; omega)]
  simp only [le32_length]
  exact rd32_le32 _ _

/-- Parsing `p_filesz` (byte offset 16) back out of a dumped program
header. -/
theorem phdr_parse_filesz (p : Elf32_Phdr) (rest : List Nat) :
    rd32 (p.dumps ++ rest) 16 = p.p_filesz % 2 ^ 32 := by
  rw [Elf32_Phdr.dumps]
  simp only [List.append_assoc]
  rw [rd32_append_right _ _ _ (by simp only [le32_length]; omega),
    rd32_append_right _ _ _ (by simp only [le32_length]; omega),
    rd32_append_right _ _ _ (by simp only [le32_length]; omega),
    rd32_append_right _ _ _ (by simp only [le32_length]; omega)]
  simp only [le32_length]
  exact rd32_le32 _ _

/-- Dropping a leading block plus `k` more bytes. -/
theorem drop_append_len (A B : List Nat) (k : Nat) :
    (A ++ B).drop (A.length + k) = B.drop k := by
  rw [← List.drop_drop, List.drop_left]

/-- The descriptor table serializes to `32 * N` bytes. -/
theorem flatten_dumps_length (ps : List Elf32_Phdr) :
    (ps.map Elf32_Phdr.dumps).flatten.length = 32 * ps.length := by
  induction ps with
  | nil => rfl
  | cons p ps ih =>
    simp only [List.map_cons, List.flatten_cons, List.length_append, ih,
      phdr_dumps_length, List.length_cons]
    ring

/-- The 32-byte window at offset `32 * i` into the serialized descriptor
table is the dump of the i-th descriptor. -/
theorem flatten_dumps_window (ps : List Elf32_Phdr) :
    ∀ (i : Nat) (rest : List Nat), i < ps.length →
      ∀ (hi : i < ps.length),
      (((ps.map Elf32_Phdr.dumps).flatten ++ rest).drop (32 * i)).take 32 =
        Elf32_Phdr.dumps (ps.get ⟨i, hi⟩) := by
  induction ps with
  | nil => intro i rest hi; exact absurd hi (by simp)
  | cons p ps ih =>
    intro i rest _ hi
    cases i with
    | zero =>
      simp only [List.map_cons, List.flatten_cons, List.append_assoc,
        Nat.mul_zero, List.drop_zero, List.get]
      rw [← phdr_dumps_length p, List.take_left]
    | succ i =>
      have hi2 : i < ps.length := by simpa using hi
      simp only [List.map_cons, List.flatten_cons, List.append_assoc,
        List.get]
      have h32 : 32 * (i + 1) = (Elf32_Phdr.dumps p).length + 32 * i := by
        rw [phdr_dumps_length]; ring
      rw [h32, drop_append_len]
      exact ih i rest hi2 hi2

/-- The window at the cumulative offset into the concatenated payloads is
the i-th payload. -/
theorem flatten_data_window (ds : List (List Nat)) :
    ∀ (i : Nat), ∀ (hi : i < ds.length),
      (ds.flatten.drop (((ds.take i).map List.length).sum)).take
          (ds.get ⟨i, hi⟩).length =
        ds.get ⟨i, hi⟩ := by
  induction ds with
  | nil => intro i hi; simp at hi
  | cons d ds ih =>
    intro i hi
    cases i with
    | zero =>
      simp only [List.take_zero, List.map_nil, List.sum_nil,
        List.flatten_cons, List.drop_zero, List.get]
      exact List.take_left d ds.flatten
    | succ i =>
      have hi2 : i < ds.length := by simpa using hi
      simp only [List.take_succ_cons, List.map_cons, List.sum_cons,
        List.flatten_cons, List.get]
      rw [drop_append_len]
      exact ih i hi2

/-- The offset-assignment pass keeps every payload. -/
theorem assignOffsets_data (ps : List Elf32_Phdr) : ∀ ofs : Nat,
    (assignOffsets ofs ps).map (fun p => p.data) =
      ps.map (fun p => p.data) := by
  induction ps with
  | nil => intro ofs; rfl
  | cons p ps ih =>
    intro ofs
    simp only [assignOffsets, List.map_cons, ih]

/-- A prefix sums to at most the whole list. -/
theorem sum_take_le (l : List Nat) (k : Nat) : (l.take k).sum ≤ l.sum := by
  conv_rhs => rw [← List.take_append_drop k l]
  rw [List.sum_append]
  omega

theorem assignOffsets_length (ps : List Elf32_Phdr) : ∀ ofs : Nat,
    (assignOffsets ofs ps).length = ps.length := by
  induction ps with
  | nil => intro ofs; rfl
  | cons p ps ih =>
    intro ofs
    simp only [assignOffsets, List.length_cons, ih]

/-- The offset-assignment pass element-wise: descriptor `i` receives the
start offset plus the payload sizes of all earlier segments, its file size
becomes its payload length, its memory size is raised to at least the file
size, and every other field (in particular `p_vaddr` and `data`) is kept. -/
theorem assignOffsets_get (ps : List Elf32_Phdr) :
    ∀ (ofs i : Nat), ∀ (hi : i < ps.length),
      (assignOffsets ofs ps)[i]? = some
        { ps.get ⟨i, hi⟩ with
          p_offset :=
            ofs + ((ps.take i).map (fun p => p.data.length)).sum
          p_filesz := (ps.get ⟨i, hi⟩).data.length
          p_memsz :=
            if (ps.get ⟨i, hi⟩).data.length > (ps.get ⟨i, hi⟩).p_memsz
            then (ps.get ⟨i, hi⟩).data.length
            else (ps.get ⟨i, hi⟩).p_memsz } := by
  induction ps with
  | nil => intro ofs i hi; exact absurd hi (by simp)
  | cons p ps ih =>
    intro ofs i hi
    cases i with
    | zero =>
      simp [assignOffsets]
    | succ i =>
      have hi2 : i < ps.length := by simpa using hi
      simp only [assignOffsets, List.getElem?_cons_succ, List.get,
        List.take_succ_cons, List.map_cons, List.sum_cons]
      rw [ih (ofs + p.data.length) i hi2]
      have he : ofs + p.data.length +
          ((ps.take i).map (fun p => p.data.length)).sum =
          ofs + (p.data.length +
            ((ps.take i).map (fun p => p.data.length)).sum) := by ring
      rw [he]

/-- The program-header loop of `CoreFile.__init__`, characterized: when
every chunk is full-size, it parses all `n` descriptors, descriptor `k`
coming from the 32-byte window at `phoff + (i+k) * entsize` with its data
sliced at the parsed offset. -/
theorem parsePhdrs_spec (b : List Nat) (phoff entsize : Nat) :
    ∀ (n i : Nat),
      (∀ k, k < n →
        32 ≤ ((b.drop (phoff + (i + k) * entsize)).take entsize).length) →
      ∃ ps, parsePhdrs b phoff entsize n i = some ps ∧
        ps.length = n ∧
        ∀ k, k < n → ps[k]? = some
          ({ Elf32_Phdr.parse
              ((b.drop (phoff + (i + k) * entsize)).take entsize) with
            data := (b.drop (Elf32_Phdr.parse
                ((b.drop (phoff + (i + k) * entsize)).take entsize)).p_offset).take
              (Elf32_Phdr.parse
                ((b.drop (phoff + (i + k) * entsize)).take entsize)).p_filesz }) := by
  intro n
  induction n with
  | zero =>
    intro i _
    exact ⟨[], rfl, rfl, fun k hk => absurd hk (by omega)⟩
  | succ n ih =>
    intro i hlen
    have h0 : 32 ≤ ((b.drop (phoff + (i + 0) * entsize)).take entsize).length :=
      hlen 0 (by omega)
    have hrest : ∀ k, k < n →
        32 ≤ ((b.drop (phoff + (i + 1 + k) * entsize)).take entsize).length := by
      intro k hk
      have := hlen (k + 1) (by omega)
      have he : i + (k + 1) = i + 1 + k := by omega
      rw [he] at this
      exact this
    obtain ⟨ps, hps, hlenps, hget⟩ := ih (i + 1) hrest
    refine ⟨({ Elf32_Phdr.parse
        ((b.drop (phoff + i * entsize)).take entsize) with
      data := (b.drop (Elf32_Phdr.parse
          ((b.drop (phoff + i * entsize)).take entsize)).p_offset).take
        (Elf32_Phdr.parse
          ((b.drop (phoff + i * entsize)).take entsize)).p_filesz } :: ps),
      ?_, ?_, ?_⟩
    · rw [parsePhdrs]
      rw [if_pos (by
        have he : i + 0 = i := by omega
        rw [he] at h0
        exact h0)]
      rw [hps]
      rfl
    · simp [hlenps]
    · intro k hk
      cases k with
      | zero =>
        simp only [List.getElem?_cons_zero]
        rfl
      | succ k =>
        have hk2 : k < n := by omega
        simp only [List.getElem?_cons_succ]
        have := hget k hk2
        have he : i + 1 + k = i + (k + 1) := by omega
        rw [he] at this
        exact this

/-- `dump` emits the header, then the descriptor table, then the payloads
(right-associated view). -/
theorem dumpBytes_shape (cf : CoreFile) :
    CoreFile.dumpBytes cf = cf.update_headers.ehdr.dumps ++
      ((cf.update_headers.phdr.map Elf32_Phdr.dumps).flatten ++
        (cf.update_headers.phdr.map (fun p => p.data)).flatten) := by
  show cf.update_headers.ehdr.dumps ++
      (cf.update_headers.phdr.map Elf32_Phdr.dumps).flatten ++
      (cf.update_headers.phdr.map (fun p => p.data)).flatten = _
  rw [List.append_assoc]

/-- Re-reading a dumped core file succeeds and reproduces every segment's
virtual address and payload, provided the descriptor count fits the 16-bit
header field and all virtual addresses and the total file size fit 32
bits. -/
theorem ofBytes_dumpBytes (cf : CoreFile)
    (hnum : cf.phdr.length < 2 ^ 16)
    (hfit : 52 + 32 * cf.phdr.length +
      ((cf.phdr.map (fun p => p.data.length)).sum) < 2 ^ 32)
    (hva : ∀ p ∈ cf.phdr, p.p_vaddr < 2 ^ 32) :
    ∃ cfp, CoreFile.ofBytes (CoreFile.dumpBytes cf) = some cfp ∧
      cfp.phdr.map (fun q => (q.p_vaddr, q.data.length)) =
        cf.phdr.map (fun p => (p.p_vaddr, p.data.length)) := by
  rcases hcase : cf.phdr with _ | ⟨p0, ptl⟩
  · -- no segments: the dump is the bare 52-byte header
    have hemp : cf.phdr.isEmpty = true := by rw [hcase]; rfl
    have hupd : cf.update_headers =
        { ehdr := { cf.ehdr with e_phoff := 0, e_phentsize := 0, e_phnum := 0 }
          phdr := [] } := by
      rw [CoreFile.update_headers, hemp]
      simp [hcase, assignOffsets]
    have hb : CoreFile.dumpBytes cf =
        ({ cf.ehdr with e_phoff := 0, e_phentsize := 0, e_phnum := 0 } : Elf32_Ehdr).dumps ++ ([] ++ []) := by
      rw [dumpBytes_shape, hupd]
      rfl
    have hblen : (CoreFile.dumpBytes cf).length = 52 := by
      rw [hb]
      simp [ehdr_dumps_length]
    have hparse_num : (Elf32_Ehdr.parse (CoreFile.dumpBytes cf)).e_phnum = 0 := by
      show rd16 (CoreFile.dumpBytes cf) 44 = 0
      rw [hb, ehdr_parse_phnum]
      rfl
    refine ⟨{ ehdr := Elf32_Ehdr.parse (CoreFile.dumpBytes cf), phdr := [] },
      ?_, rfl⟩
    rw [CoreFile.ofBytes]
    rw [if_pos (by simp only [ehdrSize, hblen]; omega)]
    dsimp only
    rw [hparse_num]
    rfl
  · -- at least one segment
    have hemp : cf.phdr.isEmpty = false := by rw [hcase]; rfl
    rw [← hcase]
    have hupd : cf.update_headers =
        { ehdr := { cf.ehdr with
            e_phoff := 52
            e_phentsize := 32
            e_phnum := cf.phdr.length }
          phdr := assignOffsets (52 + 32 * cf.phdr.length) cf.phdr } := by
      rw [CoreFile.update_headers, hemp]
      simp [ehdrSize, phdrSize]
    have hEph : cf.update_headers.ehdr.e_phoff = 52 := by rw [hupd]
    have hEent : cf.update_headers.ehdr.e_phentsize = 32 := by rw [hupd]
    have hEnum : cf.update_headers.ehdr.e_phnum = cf.phdr.length := by
      rw [hupd]
    have hPh : cf.update_headers.phdr =
        assignOffsets (52 + 32 * cf.phdr.length) cf.phdr := by rw [hupd]
    have hb := dumpBytes_shape cf
    have hElen : cf.update_headers.ehdr.dumps.length = 52 :=
      ehdr_dumps_length _
    have hlen2 : cf.update_headers.phdr.length = cf.phdr.length := by
      rw [hPh, assignOffsets_length]
    have hDlen : (cf.update_headers.phdr.map Elf32_Phdr.dumps).flatten.length =
        32 * cf.phdr.length := by
      rw [flatten_dumps_length, hlen2]
    have hdata2 : cf.update_headers.phdr.map (fun p => p.data) =
        cf.phdr.map (fun p => p.data) := by
      rw [hPh, assignOffsets_data]
    have hPlen : (cf.update_headers.phdr.map (fun p => p.data)).flatten.length =
        (cf.phdr.map (fun p => p.data.length)).sum := by
      rw [hdata2, List.length_flatten, List.map_map]
      rfl
    have hblen : (CoreFile.dumpBytes cf).length =
        52 + 32 * cf.phdr.length +
          (cf.phdr.map (fun p => p.data.length)).sum := by
      rw [hb]
      simp only [List.length_append, hElen, hDlen, hPlen]
      ring
    have hparse_phoff :
        (Elf32_Ehdr.parse (CoreFile.dumpBytes cf)).e_phoff = 52 := by
      show rd32 (CoreFile.dumpBytes cf) 28 = 52
      rw [hb, ehdr_parse_phoff, hEph]
      norm_num
    have hparse_ent :
        (Elf32_Ehdr.parse (CoreFile.dumpBytes cf)).e_phentsize = 32 := by
      show rd16 (CoreFile.dumpBytes cf) 42 = 32
      rw [hb, ehdr_parse_phentsize, hEent]
      norm_num
    have hparse_num :
        (Elf32_Ehdr.parse (CoreFile.dumpBytes cf)).e_phnum =
          cf.phdr.length := by
      show rd16 (CoreFile.dumpBytes cf) 44 = cf.phdr.length
      rw [hb, ehdr_parse_phnum, hEnum]
      exact Nat.mod_eq_of_lt hnum
    have hchunk : ∀ k, k < cf.phdr.length →
        32 ≤ (((CoreFile.dumpBytes cf).drop (52 + (0 + k) * 32)).take
          32).length := by
      intro k hk
      simp only [List.length_take, List.length_drop, hblen]
      omega
    obtain ⟨ps3, hps3, hlen3, hget3⟩ :=
      parsePhdrs_spec (CoreFile.dumpBytes cf) 52 32 cf.phdr.length 0 hchunk
    refine ⟨{ ehdr := Elf32_Ehdr.parse (CoreFile.dumpBytes cf), phdr := ps3 },
      ?_, ?_⟩
    · rw [CoreFile.ofBytes]
      rw [if_pos (by simp only [ehdrSize, hblen]; omega)]
      dsimp only
      rw [hparse_phoff, hparse_ent, hparse_num, hps3]
      rfl
    · -- element-wise round trip
      have key : ∀ k, ∀ hk : k < cf.phdr.length,
          ps3[k]?.map (fun q => (q.p_vaddr, q.data.length)) =
            some ((cf.phdr.get ⟨k, hk⟩).p_vaddr,
              (cf.phdr.get ⟨k, hk⟩).data.length) := by
        intro k hk
        have hk2 : k < cf.update_headers.phdr.length := by omega
        -- the k-th updated descriptor
        have hq := assignOffsets_get cf.phdr (52 + 32 * cf.phdr.length) k hk
        rw [← hPh] at hq
        have hqget : cf.update_headers.phdr[k]? =
            some (cf.update_headers.phdr.get ⟨k, hk2⟩) := by
          rw [List.getElem?_eq_getElem hk2]
          rfl
        rw [hqget] at hq
        have hqval := Option.some.inj hq
        -- the k-th 32-byte chunk is the dump of the k-th updated descriptor
        have hchunkeq : ((CoreFile.dumpBytes cf).drop (52 + (0 + k) * 32)).take
            32 = Elf32_Phdr.dumps (cf.update_headers.phdr.get ⟨k, hk2⟩) := by
          rw [hb]
          rw [show 52 + (0 + k) * 32 =
            (cf.update_headers.ehdr.dumps).length + 32 * k from by
            rw [hElen]; ring]
          rw [drop_append_len]
          exact flatten_dumps_window cf.update_headers.phdr k _ hk2 hk2
        -- parsed scalar fields of the k-th chunk
        have hvaddr : (Elf32_Phdr.parse
            (((CoreFile.dumpBytes cf).drop (52 + (0 + k) * 32)).take
              32)).p_vaddr = (cf.phdr.get ⟨k, hk⟩).p_vaddr := by
          show rd32 (((CoreFile.dumpBytes cf).drop (52 + (0 + k) * 32)).take 32)
            8 = _
          rw [hchunkeq, ← List.append_nil
            (Elf32_Phdr.dumps (cf.update_headers.phdr.get ⟨k, hk2⟩)),
            phdr_parse_vaddr, hqval]
          have hlt : (cf.phdr.get ⟨k, hk⟩).p_vaddr < 2 ^ 32 :=
            hva _ (List.get_mem cf.phdr k hk)
          exact Nat.mod_eq_of_lt hlt
        have hofs : (Elf32_Phdr.parse
            (((CoreFile.dumpBytes cf).drop (52 + (0 + k) * 32)).take
              32)).p_offset =
            52 + 32 * cf.phdr.length +
              ((cf.phdr.take k).map (fun p => p.data.length)).sum := by
          show rd32 (((CoreFile.dumpBytes cf).drop (52 + (0 + k) * 32)).take 32)
            4 = _
          rw [hchunkeq, ← List.append_nil
            (Elf32_Phdr.dumps (cf.update_headers.phdr.get ⟨k, hk2⟩)),
            phdr_parse_offset, hqval]
          have hle := sum_take_le (cf.phdr.map (fun p => p.data.length)) k
          rw [← List.map_take] at hle
          have hlt : 52 + 32 * cf.phdr.length +
              ((cf.phdr.take k).map (fun p => p.data.length)).sum < 2 ^ 32 :=
            by omega
          exact Nat.mod_eq_of_lt hlt
        have hfsz : (Elf32_Phdr.parse
            (((CoreFile.dumpBytes cf).drop (52 + (0 + k) * 32)).take
              32)).p_filesz = (cf.phdr.get ⟨k, hk⟩).data.length := by
          show rd32 (((CoreFile.dumpBytes cf).drop (52 + (0 + k) * 32)).take 32)
            16 = _
          rw [hchunkeq, ← List.append_nil
            (Elf32_Phdr.dumps (cf.update_headers.phdr.get ⟨k, hk2⟩)),
            phdr_parse_filesz, hqval]
          have hmem : (cf.phdr.get ⟨k, hk⟩).data.length ∈
              cf.phdr.map (fun p => p.data.length) :=
            List.mem_map_of_mem _ (cf.phdr.get_mem k hk)
          have hle := List.single_le_sum
            (fun (x : Nat) _ => Nat.zero_le x) _ hmem
          have hlt : (cf.phdr.get ⟨k, hk⟩).data.length < 2 ^ 32 := by omega
          exact Nat.mod_eq_of_lt hlt
        -- the sliced payload is the k-th original payload
        have hslice : ((CoreFile.dumpBytes cf).drop
            (52 + 32 * cf.phdr.length +
              ((cf.phdr.take k).map (fun p => p.data.length)).sum)).take
            ((cf.phdr.get ⟨k, hk⟩).data.length) =
            (cf.phdr.get ⟨k, hk⟩).data := by
          rw [hb]
          rw [show 52 + 32 * cf.phdr.length +
              ((cf.phdr.take k).map (fun p => p.data.length)).sum =
              (cf.update_headers.ehdr.dumps).length +
                ((cf.update_headers.phdr.map Elf32_Phdr.dumps).flatten.length +
                  ((cf.phdr.take k).map (fun p => p.data.length)).sum) from by
            rw [hElen, hDlen]; ring]
          rw [drop_append_len, drop_append_len, hdata2]
          have hkd : k < (cf.phdr.map (fun p => p.data)).length := by
            simpa using hk
          have hw := flatten_data_window (cf.phdr.map (fun p => p.data)) k hkd
          have hds : (cf.phdr.map (fun p => p.data)).get ⟨k, hkd⟩ =
              (cf.phdr.get ⟨k, hk⟩).data := by
            simp
          rw [hds] at hw
          have hpre : (((cf.phdr.map (fun p => p.data)).take k).map
              List.length).sum =
              ((cf.phdr.take k).map (fun p => p.data.length)).sum := by
            rw [← List.map_take, List.map_map]
            rfl
          rw [hpre] at hw
          exact hw
        -- assemble
        rw [hget3 k hk]
        simp only [Option.map_some]
        rw [hofs, hfsz, hslice, hvaddr]
        rfl
      -- list-level equality from the pointwise one
      show ps3.map (fun q => (q.p_vaddr, q.data.length)) =
        cf.phdr.map (fun p => (p.p_vaddr, p.data.length))
      apply List.ext_getElem?
      intro n
      by_cases hn : n < cf.phdr.length
      · rw [List.getElem?_map, List.getElem?_map]
        rw [key n hn]
        rw [List.getElem?_eq_getElem hn]
        rfl
      · rw [List.getElem?_map, List.getElem?_map]
        rw [List.getElem?_eq_none (by omega), List.getElem?_eq_none (by omega)]

/-- Every descriptor produced by the offset pass has `p_filesz = len(data)`
and `p_memsz` at least `p_filesz`. -/
theorem assignOffsets_filesz_memsz (ps : List Elf32_Phdr) : ∀ ofs : Nat,
    ∀ q ∈ assignOffsets ofs ps,
      q.p_filesz = q.data.length ∧ q.p_filesz ≤ q.p_memsz := by
  induction ps with
  | nil => intro ofs q hq; exact absurd hq (by simp [assignOffsets])
  | cons p ps ih =>
    intro ofs q hq
    rw [assignOffsets, List.mem_cons] at hq
    rcases hq with hq | hq
    · subst hq
      refine ⟨rfl, ?_⟩
      show p.data.length ≤
        if p.data.length > p.p_memsz then p.data.length else p.p_memsz
      split <;> omega
    · exact ih (ofs + p.data.length) q hq

/-- `update_headers` lays the payloads out behind a table of
`len(_phdr)` 32-byte descriptors that starts at byte 52, whether or not the
list is empty (an empty list gets the table `0 + 0 * 0 = 0`, and
`assignOffsets` of an empty list ignores its start offset). -/
theorem update_headers_phdr (cf : CoreFile) :
    cf.update_headers.phdr =
      assignOffsets (52 + 32 * cf.phdr.length) cf.phdr := by
  rcases hcase : cf.phdr with _ | ⟨p0, ptl⟩
  · have hemp : cf.phdr.isEmpty = true := by rw [hcase]; rfl
    rw [CoreFile.update_headers, hemp]
    simp [hcase, assignOffsets]
  · have hemp : cf.phdr.isEmpty = false := by rw [hcase]; rfl
    rw [CoreFile.update_headers, hemp]
    rw [← hcase]
    simp [ehdrSize, phdrSize]

/-- C3 as stated is false for N = 0: the claim says the serialized
segment-table offset equals the header size "including when N = 0", but
`CoreFile.update_headers` zeroes `e_phoff` (together with `e_phentsize` and
`e_phnum`) when the segment list is empty, so a container with no segments
records table offset 0, not the 52-byte header size. -/
theorem C3_counterexample :
    (CoreFile.update_headers CoreFile.init).ehdr.e_phoff = 0 ∧
    (0 : Nat) ≠ ehdrSize := by
  constructor
  · decide
  · decide

/-- C3 (amended): serialization recomputes the header so that the
segment-table offset equals the header size (52) when there is at least one
segment, and 0 when there are none; every updated descriptor has
`p_filesz` equal to its payload length and `p_memsz ≥ p_filesz`; descriptor
`i`'s file offset equals header size + N × descriptor size plus the payload
sizes of all earlier segments; the emitted bytes are the file header, then
all descriptors, then all payloads in descriptor order; and re-parsing the
emitted bytes reproduces every segment's virtual address and payload length
(under the size bounds that make the 16- and 32-bit header fields
faithful). -/
theorem C3_serialization (cf : CoreFile)
    (hnum : cf.phdr.length < 2 ^ 16)
    (hfit : 52 + 32 * cf.phdr.length +
      ((cf.phdr.map (fun p => p.data.length)).sum) < 2 ^ 32)
    (hva : ∀ p ∈ cf.phdr, p.p_vaddr < 2 ^ 32) :
    cf.update_headers.ehdr.e_phoff =
      (if cf.phdr.isEmpty then 0 else ehdrSize) ∧
    (∀ q ∈ cf.update_headers.phdr,
      q.p_filesz = q.data.length ∧ q.p_filesz ≤ q.p_memsz) ∧
    (∀ i : Nat, i < cf.phdr.length →
      (cf.update_headers.phdr[i]?.map (fun q => q.p_offset)) =
        some (ehdrSize + phdrSize * cf.phdr.length +
          ((cf.phdr.take i).map (fun p => p.data.length)).sum)) ∧
    CoreFile.dumpBytes cf = cf.update_headers.ehdr.dumps ++
      ((cf.update_headers.phdr.map Elf32_Phdr.dumps).flatten ++
        (cf.update_headers.phdr.map (fun p => p.data)).flatten) ∧
    (∃ cfp, CoreFile.ofBytes (CoreFile.dumpBytes cf) = some cfp ∧
      cfp.phdr.map (fun q => (q.p_vaddr, q.data.length)) =
        cf.phdr.map (fun p => (p.p_vaddr, p.data.length))) := by
  refine ⟨?_, ?_, ?_, dumpBytes_shape cf, ofBytes_dumpBytes cf hnum hfit hva⟩
  · rcases hcase : cf.phdr with _ | ⟨p0, ptl⟩
    · have hemp : cf.phdr.isEmpty = true := by rw [hcase]; rfl
      rw [CoreFile.update_headers, hemp]
      rfl
    · have hemp : cf.phdr.isEmpty = false := by rw [hcase]; rfl
      rw [CoreFile.update_headers, hemp]
      rfl
  · intro q hq
    rw [update_headers_phdr] at hq
    exact assignOffsets_filesz_memsz cf.phdr _ q hq
  · intro i hi
    rw [update_headers_phdr]
    rw [assignOffsets_get cf.phdr (52 + 32 * cf.phdr.length) i hi]
    rfl

/-- C3 witness: the two-segment core file `cfW` (a 3-byte note and a 5-byte
loadable segment) satisfies the size bounds, and `C3_serialization` applies
to it. -/
theorem C3_serialization_witness :
    cfW.phdr.length < 2 ^ 16 ∧
    52 + 32 * cfW.phdr.length +
      ((cfW.phdr.map (fun p => p.data.length)).sum) < 2 ^ 32 ∧
    (∀ p ∈ cfW.phdr, p.p_vaddr < 2 ^ 32) ∧
    (cfW.update_headers.ehdr.e_phoff =
      (if cfW.phdr.isEmpty then 0 else ehdrSize) ∧
    (∀ q ∈ cfW.update_headers.phdr,
      q.p_filesz = q.data.length ∧ q.p_filesz ≤ q.p_memsz) ∧
    (∀ i : Nat, i < cfW.phdr.length →
      (cfW.update_headers.phdr[i]?.map (fun q => q.p_offset)) =
        some (ehdrSize + phdrSize * cfW.phdr.length +
          ((cfW.phdr.take i).map (fun p => p.data.length)).sum)) ∧
    CoreFile.dumpBytes cfW = cfW.update_headers.ehdr.dumps ++
      ((cfW.update_headers.phdr.map Elf32_Phdr.dumps).flatten ++
        (cfW.update_headers.phdr.map (fun p => p.data)).flatten) ∧
    (∃ cfp, CoreFile.ofBytes (CoreFile.dumpBytes cfW) = some cfp ∧
      cfp.phdr.map (fun q => (q.p_vaddr, q.data.length)) =
        cfW.phdr.map (fun p => (p.p_vaddr, p.data.length)))) :=
  ⟨by decide, by decide, by decide,
    C3_serialization cfW (by decide) (by decide) (by decide)⟩

end GdbChibios
